import Mathlib

/-!
# VEdit (vnote, `src/vedit.cpp`): a shallow embedding

The editor widget is a thin layer over the host toolkit's rich-text widget.
The embedding keeps the widget's own logic (`VEditConfig::init`, the find
engine, the overlay table, the drag-scroll handlers) and represents the
toolkit by

* a document that is a list of characters, blocks being separated by
  `blockSeparator`;
* a text cursor that is an anchor and a position;
* the document search primitive `QTextDocument::find`, taken as a parameter
  `H : DocFind` wherever the widget's code only orchestrates it;
* scroll bars with a value, a range and a visibility flag.

Loops of the source that have no syntactic bound (`while (true)`,
`while (!found)`) are embedded with a fuel argument and return `none` when the
fuel runs out.

The slots connected to `cursorPositionChanged` and `selectionChanged` write the
overlay table only; the find engine below does not run them, so the statements
about it speak of the document, the text cursor, the return values and the
overlay slot written by the called function itself.
-/

namespace VNote

/-! ## Machine integers

A value of the C++ type `int` is an integer of the range from `INT_MIN` to
`INT_MAX`; the result of an arithmetic operation on `int` is the mathematical
result reduced to that range modulo 2^32. -/

/-- The least value of `int`. -/
def INT_MIN : Int := -2147483648

/-- The greatest value of `int`. -/
def INT_MAX : Int := 2147483647

/-- The `int` that an arithmetic result `x` is stored as: `x` reduced modulo
2^32 to the range of `int`. -/
def wrapInt (x : Int) : Int := (x + 2147483648) % 4294967296 - 2147483648

/-- The subtraction `a - b` of two `int`. -/
def intSub (a b : Int) : Int := wrapInt (a - b)

/-- The product `a * b` of two `int`. -/
def intMul (a b : Int) : Int := wrapInt (a * b)

/-- The function `qAbs` on `int`: `t >= 0 ? t : -t`. -/
def qAbs (t : Int) : Int := if t ≥ 0 then t else wrapInt (-t)

/-- Whether the integer `x` is a value of `int`. -/
def fitsInt (x : Int) : Bool := decide (INT_MIN ≤ x) && decide (x ≤ INT_MAX)

/-- Whether the integer `x` and its absolute value are values of `int`. -/
def absFitsInt (x : Int) : Bool := decide (-INT_MAX ≤ x) && decide (x ≤ INT_MAX)

/-! ## Configuration snapshot -/

/-- The colour object built from a colour name (`QColor(name)`). -/
structure QColor where
  name : String
deriving DecidableEq, Repr

/-- The getters of the global settings object `vconfig` read by `vedit.cpp`. -/
structure VConfigManager where
  tabStopWidth : Int
  isExpandTab : Bool
  enableVimMode : Bool
  editorCurrentLineBg : String
  highlightCursorLine : Bool
  highlightSelectedWord : Bool
  highlightSearchedWord : Bool
  enableTrailingSpaceHighlight : Bool
deriving DecidableEq, Repr

/-- The members of `VEditConfig`. -/
structure VEditConfig where
  m_tabStopWidth : Int
  m_expandTab : Bool
  m_tabSpaces : List Char
  m_enableVimMode : Bool
  m_cursorLineBg : QColor
  m_highlightWholeBlock : Bool
deriving DecidableEq, Repr

/-- `VEditConfig::init(p_metric)`; `spaceWidth` is `p_metric.width(' ')` and
`c` the snapshot before the call. -/
def VEditConfig.init (vconfig : VConfigManager) (spaceWidth : Int) (c : VEditConfig) :
    VEditConfig :=
  let c1 : VEditConfig :=
    if vconfig.tabStopWidth > 0 then
      { c with m_tabStopWidth := intMul vconfig.tabStopWidth spaceWidth }
    else
      { c with m_tabStopWidth := 0 }
  let c2 : VEditConfig := { c1 with m_expandTab := vconfig.isExpandTab }
  let c3 : VEditConfig :=
    if c2.m_expandTab && decide (vconfig.tabStopWidth > 0) then
      { c2 with m_tabSpaces := List.replicate vconfig.tabStopWidth.toNat ' ' }
    else
      { c2 with m_tabSpaces := ['\t'] }
  let c4 : VEditConfig := { c3 with m_enableVimMode := vconfig.enableVimMode }
  let c5 : VEditConfig := { c4 with m_cursorLineBg := QColor.mk vconfig.editorCurrentLineBg }
  { c5 with m_highlightWholeBlock := c5.m_enableVimMode }

/-! ## Text cursor and document -/

/-- A `QTextCursor` on the document: anchor and position. -/
structure QTextCursor where
  anchor : Nat
  position : Nat
deriving DecidableEq, Repr

namespace QTextCursor

/-- `selectionStart()`. -/
def selectionStart (c : QTextCursor) : Nat := min c.anchor c.position

/-- `selectionEnd()`. -/
def selectionEnd (c : QTextCursor) : Nat := max c.anchor c.position

/-- `hasSelection()`. -/
def hasSelection (c : QTextCursor) : Bool := c.anchor != c.position

/-- `clearSelection()`: the anchor joins the position. -/
def clearSelection (c : QTextCursor) : QTextCursor := { c with anchor := c.position }

/-- `setPosition(p)` with the default `MoveAnchor`. -/
def setPosition (_c : QTextCursor) (p : Nat) : QTextCursor := ⟨p, p⟩

/-- `movePosition(QTextCursor::Start, MoveAnchor)`. -/
def moveToStart (_c : QTextCursor) : QTextCursor := ⟨0, 0⟩

/-- `movePosition(QTextCursor::End, MoveAnchor)` on a document of `n` characters. -/
def moveToEnd (_c : QTextCursor) (n : Nat) : QTextCursor := ⟨n, n⟩

end QTextCursor

/-- The character that ends a block of the document. -/
def blockSeparator : Char := '\n'

/-- The bit tests made on `p_options` (`p_options & FindOption::X`). -/
structure FindOptions where
  caseSensitive : Bool
  wholeWordOnly : Bool
  regularExpression : Bool
deriving DecidableEq, Repr

/-- The value of `QTextDocument::FindFlags`. -/
structure FindFlags where
  backward : Bool
  caseSensitively : Bool
  wholeWords : Bool
deriving DecidableEq, Repr

/-- What is searched for: the text itself, or the `QRegExp` built from it with
its case sensitivity. -/
inductive Needle where
  | text (s : List Char)
  | regExp (pattern : List Char) (caseSensitive : Bool)
deriving DecidableEq, Repr

/-- The host primitive `QTextDocument::find(needle, from, flags)`: the cursor
selecting the match, or `none` for the null cursor. -/
abbrev DocFind := List Char → Needle → Nat → FindFlags → Option QTextCursor

/-- The option block shared by `findTextHelper` and `findTextAll`: the find
flags built from `p_options` and the direction. -/
def findFlagsOf (p_options : FindOptions) (p_forward : Bool) : FindFlags :=
  { backward := !p_forward
    caseSensitively := p_options.caseSensitive
    wholeWords := p_options.wholeWordOnly }

/-- The option block shared by `findTextHelper` and `findTextAll`: the regular
expression `QRegExp(p_text, caseSensitive ? CaseSensitive : CaseInsensitive)`
when `useRegExp`, else the text. -/
def needleOf (p_text : List Char) (p_options : FindOptions) : Needle :=
  if p_options.regularExpression then
    Needle.regExp p_text p_options.caseSensitive
  else
    Needle.text p_text


/-! ## The widget -/

/-- The categories of the overlay table (`SelectionId`, without `MaxSelection`). -/
inductive SelectionId where
  | CurrentLine
  | SelectedWord
  | SearchedKeyword
  | TrailingSapce
deriving DecidableEq, Repr

/-- The part of `QTextCharFormat` set by the widget. -/
structure QTextCharFormat where
  background : QColor
  fullWidthSelection : Bool
deriving DecidableEq, Repr

/-- `QTextEdit::ExtraSelection`. -/
structure ExtraSelection where
  cursor : QTextCursor
  format : QTextCharFormat
deriving DecidableEq, Repr

/-- The overlay table `m_extraSelections`, one list per category. -/
structure ExtraSelections where
  currentLine : List ExtraSelection
  selectedWord : List ExtraSelection
  searchedKeyword : List ExtraSelection
  trailingSpace : List ExtraSelection
deriving DecidableEq, Repr

/-- `m_extraSelections[(int)p_id]`, read. -/
def ExtraSelections.get (t : ExtraSelections) : SelectionId → List ExtraSelection
  | .CurrentLine => t.currentLine
  | .SelectedWord => t.selectedWord
  | .SearchedKeyword => t.searchedKeyword
  | .TrailingSapce => t.trailingSpace

/-- `m_extraSelections[(int)p_id]`, written. -/
def ExtraSelections.set (t : ExtraSelections) (p_id : SelectionId)
    (l : List ExtraSelection) : ExtraSelections :=
  match p_id with
  | .CurrentLine => { t with currentLine := l }
  | .SelectedWord => { t with selectedWord := l }
  | .SearchedKeyword => { t with searchedKeyword := l }
  | .TrailingSapce => { t with trailingSpace := l }

/-- The state of the widget read and written by the embedded functions. -/
structure VEdit where
  /-- The text of `document()`. -/
  doc : List Char
  /-- The cursor of the widget, `textCursor()`. -/
  cursor : QTextCursor
  m_extraSelections : ExtraSelections
  /-- The list last passed to `setExtraSelections`. -/
  extraSelections : List ExtraSelection
  /-- Whether `m_highlightTimer` is running. -/
  highlightTimerActive : Bool
  /-- Whether `m_wrapLabel` is shown, and where. -/
  wrapLabelVisible : Bool
  wrapLabelX : Int
  wrapLabelY : Int
  /-- Whether `m_labelTimer` is running. -/
  labelTimerActive : Bool
  /-- The sizes read by `showWrapLabel`. -/
  width : Int
  height : Int
  labelW : Int
  labelH : Int
  m_selectedWordColor : QColor
  m_searchedWordColor : QColor
  m_trailingSpaceColor : QColor
  /-- The default of `p_now` in the declaration of `highlightExtraSelections`
  (in `vedit.h`). -/
  p_nowDefault : Bool
deriving DecidableEq, Repr

namespace VEdit

/-- `setTextCursor(c)`. -/
def setTextCursor (ed : VEdit) (c : QTextCursor) : VEdit := { ed with cursor := c }

/-- Modelled from the spec: where `QTextDocument::find(needle, cursor, flags)` of
the host toolkit starts for a cursor: at the end of its selection, and at the
start of its selection when searching backward. -/
def findStart (flags : FindFlags) (c : QTextCursor) : Nat :=
  if flags.backward then c.selectionStart else c.selectionEnd

/-- Modelled from the spec: `QTextEdit::find(needle, flags)` of the host toolkit,
which is not part of this repository. The document is searched from
the end of the widget cursor's selection (from its start when searching
backward); a match becomes the widget's cursor, and without one the cursor
stays. -/
def find (H : DocFind) (needle : Needle) (flags : FindFlags) (ed : VEdit) : Bool × VEdit :=
  match H ed.doc needle (findStart flags ed.cursor) flags with
  | none => (false, ed)
  | some c => (true, ed.setTextCursor c)

end VEdit

/-- What `findTextHelper` hands back: its return value, the out-parameter
`p_wrapped`, the widget, and (ghost) how often the wrap branch ran. -/
structure FindOutcome where
  found : Bool
  wrapped : Bool
  nrWraps : Nat
  ed : VEdit
deriving DecidableEq, Repr

namespace VEdit

/-- The `while (!found)` loop of `findTextHelper`; `cursor` is the widget
cursor saved before the loop. -/
def findTextHelperLoop (H : DocFind) (needle : Needle) (findFlags : FindFlags)
    (p_forward : Bool) (cursor : QTextCursor) :
    Nat → Bool → Nat → VEdit → Option FindOutcome
  | 0, _, _, _ => none
  | fuel + 1, p_wrapped, nrWraps, ed =>
    let r := ed.find H needle findFlags
    let found := r.1
    let ed1 := r.2
    if p_wrapped then
      some ⟨found, p_wrapped, nrWraps, if !found then ed1.setTextCursor cursor else ed1⟩
    else if !found then
      -- Wrap to the other end of the document to search again.
      let wrapCursor := ed1.cursor.clearSelection
      let wrapCursor :=
        if p_forward then wrapCursor.moveToStart else wrapCursor.moveToEnd ed1.doc.length
      findTextHelperLoop H needle findFlags p_forward cursor fuel true (nrWraps + 1)
        (ed1.setTextCursor wrapCursor)
    else
      some ⟨found, p_wrapped, nrWraps, ed1⟩

/-- `VEdit::findTextHelper(p_text, p_options, p_forward, p_wrapped)`. -/
def findTextHelper (H : DocFind) (fuel : Nat) (p_text : List Char) (p_options : FindOptions)
    (p_forward : Bool) (ed : VEdit) : Option FindOutcome :=
  findTextHelperLoop H (needleOf p_text p_options) (findFlagsOf p_options p_forward)
    p_forward ed.cursor fuel false 0 ed

/-- The `while (true)` loop of `findTextAll`. -/
def findTextAllLoop (H : DocFind) (doc : List Char) (needle : Needle) (findFlags : FindFlags) :
    Nat → Nat → List QTextCursor → Option (List QTextCursor)
  | 0, _, _ => none
  | fuel + 1, startPos, results =>
    match H doc needle startPos findFlags with
    | none => some results
    | some cursor => findTextAllLoop H doc needle findFlags fuel cursor.selectionEnd
        (results ++ [cursor])

/-- `VEdit::findTextAll(p_text, p_options)`. -/
def findTextAll (H : DocFind) (fuel : Nat) (p_text : List Char) (p_options : FindOptions)
    (ed : VEdit) : Option (List QTextCursor) :=
  if p_text.isEmpty then
    some []
  else
    findTextAllLoop H ed.doc (needleOf p_text p_options) (findFlagsOf p_options true) fuel 0 []

/-- `VEdit::doHighlightExtraSelections()`. -/
def doHighlightExtraSelections (ed : VEdit) : VEdit :=
  { ed with
    extraSelections :=
      [SelectionId.CurrentLine, SelectionId.SelectedWord, SelectionId.SearchedKeyword,
        SelectionId.TrailingSapce].foldl (fun acc i => acc ++ ed.m_extraSelections.get i) [] }

/-- `VEdit::highlightExtraSelections(p_now)`. -/
def highlightExtraSelections (ed : VEdit) (p_now : Bool) : VEdit :=
  let ed1 := { ed with highlightTimerActive := false }
  if p_now then ed1.doHighlightExtraSelections else { ed1 with highlightTimerActive := true }

/-- `VEdit::showWrapLabel()`. -/
def showWrapLabel (ed : VEdit) : VEdit :=
  let x := (intSub ed.width ed.labelW).tdiv 2
  let y := (intSub ed.height ed.labelH).tdiv 2
  let x := if x < 0 then 0 else x
  let y := if y < 0 then 0 else y
  { ed with wrapLabelX := x, wrapLabelY := y, wrapLabelVisible := true, labelTimerActive := true }

/-- The type of `p_filter` in `highlightTextAll`. -/
abbrev SelectionFilter := VEdit → List ExtraSelection → List ExtraSelection

/-- `VEdit::highlightTextAll(p_text, p_options, p_id, p_format, p_filter)`;
`p_filter = none` is the null pointer. -/
def highlightTextAll (H : DocFind) (fuel : Nat) (p_text : List Char) (p_options : FindOptions)
    (p_id : SelectionId) (p_format : QTextCharFormat) (p_filter : Option SelectionFilter)
    (ed : VEdit) : Option VEdit :=
  let finish : VEdit → VEdit := fun ed1 =>
    let ed2 :=
      match p_filter with
      | some f =>
        { ed1 with m_extraSelections :=
            ed1.m_extraSelections.set p_id (f ed1 (ed1.m_extraSelections.get p_id)) }
      | none => ed1
    ed2.highlightExtraSelections ed2.p_nowDefault
  if !p_text.isEmpty then
    match ed.findTextAll H fuel p_text p_options with
    | none => none
    | some occurs =>
      some (finish { ed with m_extraSelections :=
        ed.m_extraSelections.set p_id (occurs.map fun c => ⟨c, p_format⟩) })
  else if (ed.m_extraSelections.get p_id).isEmpty then
    some ed
  else
    some (finish { ed with m_extraSelections := ed.m_extraSelections.set p_id [] })

/-- `VEdit::highlightSearchedWord(p_text, p_options)`. -/
def highlightSearchedWord (H : DocFind) (vconfig : VConfigManager) (fuel : Nat)
    (p_text : List Char) (p_options : FindOptions) (ed : VEdit) : Option VEdit :=
  if !vconfig.highlightSearchedWord || p_text.isEmpty then
    if !(ed.m_extraSelections.get .SearchedKeyword).isEmpty then
      some (highlightExtraSelections
        { ed with m_extraSelections := ed.m_extraSelections.set .SearchedKeyword [] } true)
    else
      some ed
  else
    ed.highlightTextAll H fuel p_text p_options .SearchedKeyword
      ⟨ed.m_searchedWordColor, false⟩ none

/-- `VEdit::findText(p_text, p_options, p_forward)`: the return value and the
widget after the call. -/
def findText (H : DocFind) (vconfig : VConfigManager) (fuel : Nat) (p_text : List Char)
    (p_options : FindOptions) (p_forward : Bool) (ed : VEdit) : Option (Bool × VEdit) :=
  if p_text.isEmpty then
    some (false, ed.setTextCursor ed.cursor.clearSelection)
  else
    match ed.findTextHelper H fuel p_text p_options p_forward with
    | none => none
    | some r =>
      if r.found then
        let ed1 := if r.wrapped then r.ed.showWrapLabel else r.ed
        (ed1.highlightSearchedWord H vconfig fuel p_text p_options).map fun ed2 => (true, ed2)
      else
        -- Simply clear previous highlight.
        (r.ed.highlightSearchedWord H vconfig fuel [] p_options).map fun ed2 => (false, ed2)

/-! ### Edits through a cursor

Every cursor of the document follows an edit: the cursor that performs it, the
widget's cursor, cursors kept in local variables and those of the overlays. -/

/-- Modelled from the spec: the host toolkit keeps every cursor of a document
valid across edits; this is where it moves a cursor position `p` when the range
from `s` to `e` is removed. -/
def adjustRemoved (s e p : Nat) : Nat :=
  if p < s then p else if p < e then s else p - (e - s)

/-- Modelled from the spec: where the host toolkit moves a cursor position `p`
when `n` characters are inserted at `s`. -/
def adjustInserted (s n p : Nat) : Nat :=
  if p < s then p else p + n

/-- A cursor whose anchor and position are moved by `f`. -/
def adjustCursor (f : Nat → Nat) (c : QTextCursor) : QTextCursor :=
  ⟨f c.anchor, f c.position⟩

/-- The overlay list with every cursor moved by `f`. -/
def adjustSelections (f : Nat → Nat) (l : List ExtraSelection) : List ExtraSelection :=
  l.map fun x => { x with cursor := adjustCursor f x.cursor }

/-- The widget after the document became `doc1` by an edit that moves cursor
positions by `f`. -/
def applyChange (doc1 : List Char) (f : Nat → Nat) (ed : VEdit) : VEdit :=
  { ed with
    doc := doc1
    cursor := adjustCursor f ed.cursor
    m_extraSelections :=
      { currentLine := adjustSelections f ed.m_extraSelections.currentLine
        selectedWord := adjustSelections f ed.m_extraSelections.selectedWord
        searchedKeyword := adjustSelections f ed.m_extraSelections.searchedKeyword
        trailingSpace := adjustSelections f ed.m_extraSelections.trailingSpace }
    extraSelections := adjustSelections f ed.extraSelections }

/-- Modelled from the spec: `c.removeSelectedText()` of the host toolkit for a
cursor `c` of the widget's document; the cursor afterwards and the widget. -/
def removeSelectedText (c : QTextCursor) (ed : VEdit) : QTextCursor × VEdit :=
  if c.hasSelection then
    let s := c.selectionStart
    let e := c.selectionEnd
    (adjustCursor (adjustRemoved s e) c,
      ed.applyChange (ed.doc.take s ++ ed.doc.drop e) (adjustRemoved s e))
  else
    (c, ed)

/-- Modelled from the spec: `c.insertText(text)` of the host toolkit for a
cursor `c` of the widget's document. A selection
of `c` is removed first, then the text goes in at the position of `c`, which
ends behind it. -/
def insertText (c : QTextCursor) (text : List Char) (ed : VEdit) : QTextCursor × VEdit :=
  let r := removeSelectedText c ed
  let c1 := r.1
  let ed1 := r.2
  if text.isEmpty then
    (c1, ed1)
  else
    let s := c1.position
    (adjustCursor (adjustInserted s text.length) c1,
      ed1.applyChange (ed1.doc.take s ++ text ++ ed1.doc.drop s) (adjustInserted s text.length))

/-- The part of `replaceText` that follows the call of `findTextHelper`, whose
result is `r`: the test of `matched` and the replacement through `cursor`, the
cursor saved on entry. -/
def replaceMatched (cursor : QTextCursor) (p_replaceText : List Char) (r : FindOutcome) :
    VEdit :=
  let matched :=
    r.found && (cursor.selectionStart == r.ed.cursor.selectionStart
      && cursor.selectionEnd == r.ed.cursor.selectionEnd)
  if matched then
    let a := removeSelectedText cursor r.ed
    let b := insertText a.1 p_replaceText a.2
    b.2.setTextCursor b.1
  else
    r.ed.setTextCursor cursor

/-- `VEdit::replaceText(p_text, p_options, p_replaceText, p_findNext)`. -/
def replaceText (H : DocFind) (vconfig : VConfigManager) (fuel : Nat) (p_text : List Char)
    (p_options : FindOptions) (p_replaceText : List Char) (p_findNext : Bool) (ed : VEdit) :
    Option VEdit :=
  let cursor := ed.cursor
  let afterReplace : Option VEdit :=
    if cursor.hasSelection then
      -- Replace occurs only if the selected text matches p_text with p_options.
      let tmpCursor := (cursor.setPosition cursor.selectionStart).clearSelection
      ((ed.setTextCursor tmpCursor).findTextHelper H fuel p_text p_options true).map
        (replaceMatched cursor p_replaceText)
    else
      some ed
  afterReplace.bind fun ed1 =>
    if p_findNext then
      (ed1.findText H vconfig fuel p_text p_options true).map fun r => r.2
    else
      some ed1

/-- The state of the `while (true)` loop of `replaceTextAll`: `nrReplaces`, the
saved cursor `cursor` (it follows the edits) and the widget. -/
structure ReplaceAllState where
  nrReplaces : Nat
  cursor : QTextCursor
  ed : VEdit
deriving DecidableEq, Repr

/-- The last branch of the loop body of `replaceTextAll`, taken when
`findTextHelper` returned `r` with a match and without a wrap: one more
replacement, made through `tmpCursor`. -/
def replaceFound (p_replaceText : List Char) (st : ReplaceAllState) (r : FindOutcome) :
    ReplaceAllState :=
  let tmpCursor := r.ed.cursor
  let s := tmpCursor.selectionStart
  let e := tmpCursor.selectionEnd
  let a := removeSelectedText tmpCursor r.ed
  let cursor1 :=
    if tmpCursor.hasSelection then adjustCursor (adjustRemoved s e) st.cursor
    else st.cursor
  let b := insertText a.1 p_replaceText a.2
  let cursor2 :=
    if p_replaceText.isEmpty then cursor1
    else adjustCursor (adjustInserted a.1.position p_replaceText.length) cursor1
  { nrReplaces := st.nrReplaces + 1, cursor := cursor2, ed := b.2.setTextCursor b.1 }

/-- The `while (true)` loop of `replaceTextAll`; `fuel` bounds the loops of the
calls made in the body. -/
def replaceTextAllLoop (H : DocFind) (fuel : Nat) (p_text : List Char) (p_options : FindOptions)
    (p_replaceText : List Char) : Nat → ReplaceAllState → Option ReplaceAllState
  | 0, _ => none
  | n + 1, st =>
    match st.ed.findTextHelper H fuel p_text p_options true with
    | none => none
    | some r =>
      if !r.found then
        some { st with ed := r.ed }
      else if r.wrapped then
        -- Wrap back.
        some { st with ed := r.ed }
      else
        replaceTextAllLoop H fuel p_text p_options p_replaceText n
          (replaceFound p_replaceText st r)

/-- `VEdit::replaceTextAll(p_text, p_options, p_replaceText)`: the number of
replacements it logs and the widget after the call. -/
def replaceTextAll (H : DocFind) (fuel : Nat) (p_text : List Char) (p_options : FindOptions)
    (p_replaceText : List Char) (ed : VEdit) : Option (Nat × VEdit) :=
  -- Replace from the start to the end and restore the cursor.
  let cursor := ed.cursor
  let tmpCursor := cursor.setPosition 0
  match replaceTextAllLoop H fuel p_text p_options p_replaceText fuel
      { nrReplaces := 0, cursor := cursor, ed := ed.setTextCursor tmpCursor } with
  | none => none
  | some st => some (st.nrReplaces, st.ed.setTextCursor st.cursor.clearSelection)

/-! ### Trailing-space overlay -/

/-- Modelled from the spec: `cursor.atBlockEnd()` of the host toolkit; the
document or the block ends at the position. -/
def atBlockEnd (doc : List Char) (c : QTextCursor) : Bool :=
  match doc.drop c.position with
  | [] => true
  | ch :: _ => ch == blockSeparator

/-- The loop of `trailingSpaceFilter`: the first entry whose selection ends at
`cursorPos` is erased. -/
def eraseEndingAt (cursorPos : Nat) : List ExtraSelection → List ExtraSelection
  | [] => []
  | x :: xs =>
    if x.cursor.selectionEnd == cursorPos then xs else x :: eraseEndingAt cursorPos xs

/-- `trailingSpaceFilter(p_editor, p_result)`: the list `p_result` afterwards. -/
def trailingSpaceFilter (p_editor : VEdit) (p_result : List ExtraSelection) :
    List ExtraSelection :=
  let cursor := p_editor.cursor
  if !atBlockEnd p_editor.doc cursor then
    p_result
  else
    eraseEndingAt cursor.position p_result

/-- The text of the regular expression used by `highlightTrailingSpace`. -/
def trailingSpacePattern : List Char := ['\\', 's', '+', '$']

/-- The options `highlightTrailingSpace` searches with:
`FindOption::RegularExpression` alone. -/
def trailingSpaceOptions : FindOptions :=
  { caseSensitive := false, wholeWordOnly := false, regularExpression := true }

/-- `VEdit::highlightTrailingSpace()`. -/
def highlightTrailingSpace (H : DocFind) (vconfig : VConfigManager) (fuel : Nat) (ed : VEdit) :
    Option VEdit :=
  if !vconfig.enableTrailingSpaceHighlight then
    if !(ed.m_extraSelections.get .TrailingSapce).isEmpty then
      some (highlightExtraSelections
        { ed with m_extraSelections := ed.m_extraSelections.set .TrailingSapce [] } true)
    else
      some ed
  else
    ed.highlightTextAll H fuel trailingSpacePattern trailingSpaceOptions
      .TrailingSapce ⟨ed.m_trailingSpaceColor, false⟩ (some trailingSpaceFilter)

end VEdit

/-! ## Mouse drag-scroll -/

/-- The values of `Qt::MouseButton` an event reports. -/
inductive MouseButton where
  | NoButton
  | LeftButton
  | RightButton
  | MidButton
deriving DecidableEq, Repr

/-- The value of `Qt::KeyboardModifiers`, one flag per modifier. -/
structure KeyboardModifiers where
  shift : Bool
  control : Bool
  alt : Bool
  meta : Bool
  keypad : Bool
  groupSwitch : Bool
deriving DecidableEq, Repr

/-- The value `Qt::ControlModifier`: the Control flag and no other. -/
def ControlModifier : KeyboardModifiers :=
  { shift := false, control := true, alt := false, meta := false, keypad := false,
    groupSwitch := false }

/-- The part of a `QMouseEvent` read by the handlers. -/
structure QMouseEvent where
  button : MouseButton
  modifiers : KeyboardModifiers
  x : Int
  y : Int
deriving DecidableEq, Repr

/-- The cursor glyphs set on the viewport. -/
inductive CursorShape where
  | IBeamCursor
  | SizeAllCursor
deriving DecidableEq, Repr

/-- A `QScrollBar`: value, range and visibility. -/
structure QScrollBar where
  value : Int
  minimum : Int
  maximum : Int
  visible : Bool
deriving DecidableEq, Repr

/-- Modelled from the spec: `QAbstractSlider::setValue` of the host toolkit, which
is not part of this repository; the new value is forced into the range of the
scroll bar. -/
def QScrollBar.setValue (b : QScrollBar) (v : Int) : QScrollBar :=
  { b with value := max b.minimum (min b.maximum v) }

/-- What of the host widget the mouse handlers read or write, and what the
default handlers of `QTextEdit` may change. -/
structure HostView where
  cursor : QTextCursor
  verBar : QScrollBar
  horBar : QScrollBar
  viewportCursor : CursorShape
  eventAccepted : Bool
deriving DecidableEq, Repr

/-- The default handling of the three mouse events by `QTextEdit`. -/
structure BaseHandlers where
  mousePressEvent : QMouseEvent → HostView → HostView
  mouseReleaseEvent : QMouseEvent → HostView → HostView
  mouseMoveEvent : QMouseEvent → HostView → HostView

/-- The drag-scroll members of `VEdit` and the host widget under them. -/
structure MouseWidget where
  m_oriMouseX : Int
  m_oriMouseY : Int
  m_readyToScroll : Bool
  m_mouseMoveScrolled : Bool
  host : HostView
deriving DecidableEq, Repr

namespace MouseWidget

/-- `VEdit::mousePressEvent(p_event)`. -/
def mousePressEvent (base : BaseHandlers) (p_event : QMouseEvent) (w : MouseWidget) :
    MouseWidget :=
  if p_event.button == MouseButton.LeftButton
      && p_event.modifiers == ControlModifier
      && !w.host.cursor.hasSelection then
    { w with
      m_oriMouseX := p_event.x
      m_oriMouseY := p_event.y
      m_readyToScroll := true
      m_mouseMoveScrolled := false
      host := { w.host with eventAccepted := true } }
  else
    { w with
      m_readyToScroll := false
      m_mouseMoveScrolled := false
      host := base.mousePressEvent p_event w.host }

/-- `VEdit::mouseReleaseEvent(p_event)`. -/
def mouseReleaseEvent (base : BaseHandlers) (p_event : QMouseEvent) (w : MouseWidget) :
    MouseWidget :=
  if w.m_mouseMoveScrolled || w.m_readyToScroll then
    { w with
      m_readyToScroll := false
      m_mouseMoveScrolled := false
      host := { w.host with viewportCursor := CursorShape.IBeamCursor, eventAccepted := true } }
  else
    { w with
      m_readyToScroll := false
      m_mouseMoveScrolled := false
      host := base.mouseReleaseEvent p_event w.host }

/-- The constant `threshold` of `mouseMoveEvent`. -/
def threshold : Int := 5

/-- `VEdit::mouseMoveEvent(p_event)`. -/
def mouseMoveEvent (base : BaseHandlers) (p_event : QMouseEvent) (w : MouseWidget) :
    MouseWidget :=
  if w.m_readyToScroll then
    let deltaX := intSub p_event.x w.m_oriMouseX
    let deltaY := intSub p_event.y w.m_oriMouseY
    let w1 : MouseWidget :=
      if decide (qAbs deltaX ≥ threshold) || decide (qAbs deltaY ≥ threshold) then
        let w2 : MouseWidget := { w with m_oriMouseX := p_event.x, m_oriMouseY := p_event.y }
        let w3 : MouseWidget :=
          if !w2.m_mouseMoveScrolled then
            { w2 with
              m_mouseMoveScrolled := true
              host := { w2.host with viewportCursor := CursorShape.SizeAllCursor } }
          else w2
        let w4 : MouseWidget :=
          if w3.host.verBar.visible then
            { w3 with host := { w3.host with
                verBar := w3.host.verBar.setValue (intSub w3.host.verBar.value deltaY) } }
          else w3
        if w4.host.horBar.visible then
          { w4 with host := { w4.host with
              horBar := w4.host.horBar.setValue (intSub w4.host.horBar.value deltaX) } }
        else w4
      else w
    { w1 with host := { w1.host with eventAccepted := true } }
  else
    { w with host := base.mouseMoveEvent p_event w.host }

end MouseWidget

/-- A mouse event delivered to the widget. -/
inductive MouseInput where
  | press (e : QMouseEvent)
  | move (e : QMouseEvent)
  | release (e : QMouseEvent)

/-- The handler run for a mouse event. -/
def MouseWidget.handle (base : BaseHandlers) (w : MouseWidget) : MouseInput → MouseWidget
  | .press e => w.mousePressEvent base e
  | .move e => w.mouseMoveEvent base e
  | .release e => w.mouseReleaseEvent base e

/-- The three states of the drag-scroll gesture named by the specification. -/
inductive DragState where
  | Idle
  | ReadyToScroll
  | Scrolling
deriving DecidableEq, Repr

/-- The state the two flags stand for; `none` for the pair (not ready, in
progress), which names no state. -/
def MouseWidget.dragState (w : MouseWidget) : Option DragState :=
  match w.m_readyToScroll, w.m_mouseMoveScrolled with
  | false, false => some .Idle
  | true, false => some .ReadyToScroll
  | true, true => some .Scrolling
  | false, true => none

/-! ## The exact text search of the host -/

/-- Whether the needle character `a` matches the document character `b`: never
the block separator, and equal as they are or after case folding. -/
def charMatches (fold : Char → Char) (caseSensitive : Bool) (a b : Char) : Bool :=
  b != blockSeparator && (if caseSensitive then a == b else fold a == fold b)

/-- Whether the needle `t` matches at the head of the text. -/
def matchesAt (fold : Char → Char) (caseSensitive : Bool) : List Char → List Char → Bool
  | [], _ => true
  | _ :: _, [] => false
  | a :: t, b :: bs => charMatches fold caseSensitive a b && matchesAt fold caseSensitive t bs

/-- The first index of the text at which the needle `t` matches. -/
def firstMatch (fold : Char → Char) (caseSensitive : Bool) (t : List Char) :
    List Char → Option Nat
  | [] => none
  | b :: bs =>
    if matchesAt fold caseSensitive t (b :: bs) then some 0
    else (firstMatch fold caseSensitive t bs).map (· + 1)

/-- Modelled from the spec: the exact text search of the host document
(`QTextDocument::find` with a string), which is not part of this repository, in
the forward direction and without the whole-word option. It yields the first
occurrence of the text at or after `pos`, lying in one block, compared as it is
or through the case folding `fold`, selected from its start to its end; an
empty text is never found. The other searches (backward, whole words, regular
expressions) are those of `rest`. -/
def exactFind (fold : Char → Char) (rest : DocFind) : DocFind :=
  fun doc needle pos flags =>
    match needle with
    | .text t =>
      if flags.backward || flags.wholeWords then rest doc needle pos flags
      else if t.isEmpty then none
      else (firstMatch fold flags.caseSensitively t (doc.drop pos)).map
        fun i => ⟨pos + i, pos + i + t.length⟩
    | .regExp _ _ => rest doc needle pos flags

/-- A host search that finds nothing. -/
def findsNothing : DocFind := fun _ _ _ _ => none

/-- Whether the text `t` occurs in the document at position `i`, for the exact
search. -/
def occursAt (fold : Char → Char) (caseSensitive : Bool) (t doc : List Char) (i : Nat) : Bool :=
  matchesAt fold caseSensitive t (doc.drop i)

/-! ## Sample values -/

/-- Default handlers that leave the host widget as it is. -/
def idleBase : BaseHandlers :=
  { mousePressEvent := fun _ v => v
    mouseReleaseEvent := fun _ v => v
    mouseMoveEvent := fun _ v => v }

/-- A host widget without a selection, the vertical scroll bar shown at 50 of
0..100 and the horizontal one hidden. -/
def sampleView : HostView :=
  { cursor := ⟨3, 3⟩
    verBar := { value := 50, minimum := 0, maximum := 100, visible := true }
    horBar := { value := 50, minimum := 0, maximum := 100, visible := false }
    viewportCursor := CursorShape.IBeamCursor
    eventAccepted := false }

/-- A widget in the given drag-scroll flags with the origin at (100, 100). -/
def sampleMouse (ready scrolled : Bool) : MouseWidget :=
  { m_oriMouseX := 100, m_oriMouseY := 100, m_readyToScroll := ready,
    m_mouseMoveScrolled := scrolled, host := sampleView }

/-- A mouse event of the left button with the Control modifier at (x, y). -/
def ctrlLeftAt (x y : Int) : QMouseEvent :=
  { button := MouseButton.LeftButton, modifiers := ControlModifier, x := x, y := y }

/-- A widget on the document `doc` with the cursor `cursor`, an empty overlay
table and the colours set by the constructor. -/
def sampleEdit (doc : List Char) (cursor : QTextCursor) : VEdit :=
  { doc := doc
    cursor := cursor
    m_extraSelections :=
      { currentLine := [], selectedWord := [], searchedKeyword := [], trailingSpace := [] }
    extraSelections := []
    highlightTimerActive := false
    wrapLabelVisible := false
    wrapLabelX := 0
    wrapLabelY := 0
    labelTimerActive := false
    width := 640
    height := 480
    labelW := 64
    labelH := 64
    m_selectedWordColor := ⟨"Yellow"⟩
    m_searchedWordColor := ⟨"Green4"⟩
    m_trailingSpaceColor := ⟨"Red"⟩
    p_nowDefault := false }

/-- Settings with every highlight enabled. -/
def sampleConfig : VConfigManager :=
  { tabStopWidth := 4
    isExpandTab := true
    enableVimMode := false
    editorCurrentLineBg := "Grey"
    highlightCursorLine := true
    highlightSelectedWord := true
    highlightSearchedWord := true
    enableTrailingSpaceHighlight := true }

/-- Settings whose tab stop width, multiplied by a glyph width of 8, leaves the
range of `int`. -/
def wideTabConfig : VConfigManager :=
  { sampleConfig with tabStopWidth := 268435456 }

/-- The exact search with the case folding of the ASCII letters; the searches
it does not cover find nothing. -/
def sampleFind : DocFind := exactFind Char.toLower findsNothing

/-- Options of a plain search: no whole-word and no regular-expression option. -/
def plainOptions (caseSensitive : Bool) : FindOptions :=
  { caseSensitive := caseSensitive, wholeWordOnly := false, regularExpression := false }

/-- The match the search text is located at from `pos` forward, in the words of
the specification: the first match at or after `pos` and, when there is none,
the first match from the document start. -/
def locateForward (H : DocFind) (doc : List Char) (needle : Needle) (flags : FindFlags)
    (pos : Nat) : Option QTextCursor :=
  match H doc needle pos flags with
  | some c => some c
  | none => H doc needle 0 flags

/-- Whether the widget's cursor has a selection whose start and end are those
of the match located from the selection start forward. -/
def selectionIsLocatedMatch (H : DocFind) (p_text : List Char) (p_options : FindOptions)
    (ed : VEdit) : Bool :=
  ed.cursor.hasSelection &&
    match locateForward H ed.doc (needleOf p_text p_options) (findFlagsOf p_options true)
        ed.cursor.selectionStart with
    | some c =>
      c.selectionStart == ed.cursor.selectionStart && c.selectionEnd == ed.cursor.selectionEnd
    | none => false

/-- The matches found one after the other from `pos`, in the words of the
specification: the first is what the host finds from `pos`, each next one what
it finds from the end of the one before, and from the end of the last one it
finds nothing. -/
def GreedyFrom (H : DocFind) (doc : List Char) (needle : Needle) (flags : FindFlags) :
    Nat → List QTextCursor → Prop
  | pos, [] => H doc needle pos flags = none
  | pos, m :: rest => H doc needle pos flags = some m ∧ GreedyFrom H doc needle flags
      m.selectionEnd rest

/-- A forward search of the host that makes progress on a document: a match
found from `pos` starts at or after `pos`, is not empty and ends in the
document. -/
def Progressive (H : DocFind) (doc : List Char) (needle : Needle) (flags : FindFlags) : Prop :=
  ∀ (pos : Nat) (c : QTextCursor), H doc needle pos flags = some c →
    pos ≤ c.selectionStart ∧ c.selectionStart < c.selectionEnd ∧ c.selectionEnd ≤ doc.length

/-- The length of the run of white space at the head of the text that reaches
the end of its block, if there is one. -/
def spaceRun : List Char → Option Nat
  | [] => none
  | c :: cs =>
    if c == blockSeparator || !c.isWhitespace then none
    else
      match spaceRun cs with
      | some n => some (n + 1)
      | none =>
        match cs with
        | [] => some 1
        | d :: _ => if d == blockSeparator then some 1 else none

/-- The first index of the text at which a run of white space up to the end of
the block starts, with the length of the run. -/
def firstSpaceRun : List Char → Option (Nat × Nat)
  | [] => none
  | c :: cs =>
    match spaceRun (c :: cs) with
    | some n => some (0, n)
    | none => (firstSpaceRun cs).map fun r => (r.1 + 1, r.2)

/-- Modelled from the spec: the regular-expression search of the host document
(`QTextDocument::find` with a `QRegExp`), which is not part of this repository,
for the one pattern of `highlightTrailingSpace`, "whitespace run at line end",
in the forward direction: the first run of white space at or after `pos` that
reaches the end of its block. All other searches are those of `rest`. -/
def trailingSpaceFind (rest : DocFind) : DocFind :=
  fun doc needle pos flags =>
    if needle = needleOf VEdit.trailingSpacePattern VEdit.trailingSpaceOptions
        ∧ flags.backward = false then
      (firstSpaceRun (doc.drop pos)).map fun r => ⟨pos + r.1, pos + r.1 + r.2⟩
    else rest doc needle pos flags

/-- The matches of the exact search taken one after the other from `pos`, in
the words of the specification: the first is the first occurrence at or after
`pos`, each next one the first occurrence at or after the end of the one before,
every match is selected from its start to its end, and no occurrence follows
the end of the last one. -/
def FirstMatchesFrom (fold : Char → Char) (caseSensitive : Bool) (t doc : List Char) :
    Nat → List QTextCursor → Prop
  | pos, [] => ∀ i, pos ≤ i → occursAt fold caseSensitive t doc i = false
  | pos, m :: rest =>
    pos ≤ m.anchor ∧ m.position = m.anchor + t.length
      ∧ occursAt fold caseSensitive t doc m.anchor = true
      ∧ (∀ i, pos ≤ i → i < m.anchor → occursAt fold caseSensitive t doc i = false)
      ∧ FirstMatchesFrom fold caseSensitive t doc m.position rest

/-- The document with each of the matches replaced, in the words of the
specification: from `pos` on, the text up to the next match is kept, the match
gives way to the replacement text, and the text behind the last match is
kept. -/
def replaceMatches (doc p_replaceText : List Char) : Nat → List QTextCursor → List Char
  | pos, [] => doc.drop pos
  | pos, m :: rest =>
    (doc.drop pos).take (m.selectionStart - pos) ++ p_replaceText
      ++ replaceMatches doc p_replaceText m.selectionEnd rest

/-! ## Selected-word overlay -/

/-- Modelled from the spec: `QChar::isSpace` of the host toolkit, which is not
part of this repository; the white-space characters. -/
def isSpace (c : Char) : Bool := c.isWhitespace

/-- Modelled from the spec: `QString::trimmed` of the host toolkit; the text
without the white space at its start and at its end. -/
def trimmed (s : List Char) : List Char :=
  (s.dropWhile isSpace).rdropWhile isSpace

/-- Modelled from the spec: `cursor.selectedText()` of the host toolkit; the
text of the document between the start and the end of the selection. -/
def selectedText (doc : List Char) (c : QTextCursor) : List Char :=
  (doc.drop c.selectionStart).take (c.selectionEnd - c.selectionStart)

/-- The options `highlightSelectedWord` searches with:
`FindOption::CaseSensitive` alone. -/
def caseSensitiveOptions : FindOptions :=
  { caseSensitive := true, wholeWordOnly := false, regularExpression := false }

/-- The loop of `wordInSearchedSelection` over the entries of the
SearchedKeyword slot; `text` is the trimmed `p_text`. -/
def VEdit.wordInSearchedSelectionLoop (doc text : List Char) : List ExtraSelection → Bool
  | [] => false
  | x :: xs =>
    if text = trimmed (selectedText doc x.cursor) then true
    else VEdit.wordInSearchedSelectionLoop doc text xs

/-- `VEdit::wordInSearchedSelection(p_text)`. -/
def VEdit.wordInSearchedSelection (ed : VEdit) (p_text : List Char) : Bool :=
  VEdit.wordInSearchedSelectionLoop ed.doc (trimmed p_text)
    (ed.m_extraSelections.get .SearchedKeyword)

/-- `VEdit::highlightSelectedWord()`. -/
def VEdit.highlightSelectedWord (H : DocFind) (vconfig : VConfigManager) (fuel : Nat)
    (ed : VEdit) : Option VEdit :=
  if !vconfig.highlightSelectedWord then
    if !(ed.m_extraSelections.get .SelectedWord).isEmpty then
      some (VEdit.highlightExtraSelections
        { ed with m_extraSelections := ed.m_extraSelections.set .SelectedWord [] } true)
    else
      some ed
  else
    let text := trimmed (selectedText ed.doc ed.cursor)
    if text.isEmpty || ed.wordInSearchedSelection text then
      some (VEdit.highlightExtraSelections
        { ed with m_extraSelections := ed.m_extraSelections.set .SelectedWord [] } true)
    else
      ed.highlightTextAll H fuel text caseSensitiveOptions .SelectedWord
        ⟨ed.m_selectedWordColor, false⟩ none

/-- A widget like `sampleEdit` whose SearchedKeyword slot holds the given
cursors. -/
def sampleEditSearched (doc : List Char) (cursor : QTextCursor) (searched : List QTextCursor) :
    VEdit :=
  { sampleEdit doc cursor with
    m_extraSelections :=
      { currentLine := [], selectedWord := []
        searchedKeyword := searched.map fun c => ⟨c, ⟨⟨"Green4"⟩, false⟩⟩
        trailingSpace := [] } }

/-! ## A regular expression that matches the empty string -/

/-- The text of the regular expression "x*": any number of `x`, none
included. -/
def starPattern : List Char := ['x', '*']

/-- The options of a search with `FindOption::RegularExpression` alone. -/
def regExpOptions : FindOptions :=
  { caseSensitive := false, wholeWordOnly := false, regularExpression := true }

/-- The length of the run of `x` at the head of the text, in either case when
the search is not case sensitive. -/
def xRun (caseSensitive : Bool) : List Char → Nat
  | [] => 0
  | c :: t =>
    if (if caseSensitive then c == 'x' else c.toLower == 'x') then xRun caseSensitive t + 1
    else 0

/-- Modelled from the spec: the regular-expression search of the host document
(`QTextDocument::find` with a `QRegExp`), which is not part of this repository,
for the pattern "x*" in the forward direction without the whole-word option.
The pattern matches at every position of the document, the position behind the
last character included: the match found from `pos` starts at `pos` and spans
the run of `x` there, which is empty when no `x` stands at `pos`. All other
searches are those of `rest`. -/
def emptyMatchFind (rest : DocFind) : DocFind :=
  fun doc needle pos flags =>
    match needle with
    | .regExp pattern caseSensitive =>
      if pattern = starPattern ∧ flags.backward = false ∧ flags.wholeWords = false then
        if pos ≤ doc.length then some ⟨pos, pos + xRun caseSensitive (doc.drop pos)⟩
        else none
      else rest doc needle pos flags
    | .text _ => rest doc needle pos flags

/-! ## Cursor-position reaction -/

/-- Modelled from the spec: the text of the block of the host document from the
start of the block to the position `pos`. -/
def blockBefore (doc : List Char) (pos : Nat) : List Char :=
  ((doc.take pos).reverse.takeWhile (· != blockSeparator)).reverse

/-- Modelled from the spec: the text of the block of the host document from the
position `pos` to the end of the block. -/
def blockAfter (doc : List Char) (pos : Nat) : List Char :=
  (doc.drop pos).takeWhile (· != blockSeparator)

/-- Modelled from the spec: `cursor.block().text()` of the host toolkit for a
cursor at `pos`; the text of the block without its separator. -/
def blockText (doc : List Char) (pos : Nat) : List Char :=
  blockBefore doc pos ++ blockAfter doc pos

/-- Modelled from the spec: `cursor.blockNumber()` of the host toolkit for a
cursor at `pos`; the number of block separators before the position. -/
def blockNumber (doc : List Char) (pos : Nat) : Nat :=
  (doc.take pos).count blockSeparator

/-- Modelled from the spec: `cursor.positionInBlock()` of the host toolkit for a
cursor at `pos`. -/
def positionInBlock (doc : List Char) (pos : Nat) : Nat :=
  (blockBefore doc pos).length

/-- Modelled from the spec: `block.position()` of the host toolkit for the
block of a cursor at `pos`. -/
def blockPosition (doc : List Char) (pos : Nat) : Nat :=
  min pos doc.length - positionInBlock doc pos

/-- Modelled from the spec: `block.length()` of the host toolkit for the block
of a cursor at `pos`; the separator counts. -/
def blockLength (doc : List Char) (pos : Nat) : Nat :=
  (blockText doc pos).length + 1

/-- The answers of the host's text layout the widget asks for: where
`movePosition(QTextCursor::Down, MoveAnchor, 1)` takes a cursor, and
`cursor.columnNumber()`, the column in the visual line. -/
structure TextLayout where
  moveDown : List Char → QTextCursor → QTextCursor
  columnNumber : List Char → QTextCursor → Nat

/-- The `while` loop of `highlightCurrentLine`, one entry per visual line of
the block; `pos` is the position of the round before, -1 at first. -/
def VEdit.highlightCurrentLineLoop (L : TextLayout) (doc : List Char) (blockEnd : Nat)
    (format : QTextCharFormat) :
    Nat → Int → QTextCursor → List ExtraSelection → Option (List ExtraSelection)
  | 0, _, _, _ => none
  | fuel + 1, pos, cursor, selects =>
    if cursor.position < blockEnd ∧ pos ≠ (cursor.position : Int) then
      VEdit.highlightCurrentLineLoop L doc blockEnd format fuel (cursor.position : Int)
        (L.moveDown doc cursor) (selects ++ [⟨cursor, format⟩])
    else
      some selects

/-- `VEdit::highlightCurrentLine()`; `readOnly` is `isReadOnly()` and `m_config`
the configuration snapshot of the widget. -/
def VEdit.highlightCurrentLine (L : TextLayout) (vconfig : VConfigManager) (readOnly : Bool)
    (m_config : VEditConfig) (fuel : Nat) (ed : VEdit) : Option VEdit :=
  if vconfig.highlightCursorLine && !readOnly then
    -- Need to highlight current line.
    let format : QTextCharFormat := ⟨m_config.m_cursorLineBg, true⟩
    let cursor := ed.cursor
    let selects : Option (List ExtraSelection) :=
      if m_config.m_highlightWholeBlock then
        let start := blockPosition ed.doc cursor.position
        let blockEnd := start + blockLength ed.doc cursor.position
        VEdit.highlightCurrentLineLoop L ed.doc blockEnd format fuel (-1) ⟨start, start⟩ []
      else
        some [⟨cursor.clearSelection, format⟩]
    selects.map fun l =>
      VEdit.highlightExtraSelections
        { ed with m_extraSelections := ed.m_extraSelections.set .CurrentLine l } true
  else
    -- Need to clear current line highlight.
    if (ed.m_extraSelections.get .CurrentLine).isEmpty then
      some ed
    else
      some (VEdit.highlightExtraSelections
        { ed with m_extraSelections := ed.m_extraSelections.set .CurrentLine [] } true)

/-- Why a call does not hand back a result: the fuel of a loop ran out, or a
character was read outside the text it belongs to. -/
inductive Fault where
  | outOfFuel
  | outOfRange
deriving DecidableEq, Repr

/-- The result of a fuelled call inside a function that can also fault. -/
def Fault.ofOption {α : Type} : Option α → Except Fault α
  | none => Except.error Fault.outOfFuel
  | some a => Except.ok a

/-- `text.rbegin()->isSpace()`: the last character of the text is read and
tested; an empty text has no last character and the read is out of range. -/
def lastIsSpace (text : List Char) : Except Fault Bool :=
  match text.getLast? with
  | none => Except.error Fault.outOfRange
  | some ch => Except.ok (isSpace ch)

/-- The two calls of `handleCursorPositionChanged` when there is no previous
cursor or the block changed. -/
def VEdit.recomputeLineAndSpace (H : DocFind) (L : TextLayout) (vconfig : VConfigManager)
    (readOnly : Bool) (m_config : VEditConfig) (fuel : Nat) (ed : VEdit) : Except Fault VEdit :=
  match ed.highlightCurrentLine L vconfig readOnly m_config fuel with
  | none => Except.error Fault.outOfFuel
  | some ed1 => Fault.ofOption (ed1.highlightTrailingSpace H vconfig fuel)

/-- The `else` branch of `handleCursorPositionChanged`, taken when the cursor is
in the block of the previous cursor `last`. -/
def VEdit.sameBlockReaction (H : DocFind) (L : TextLayout) (vconfig : VConfigManager)
    (readOnly : Bool) (m_config : VEditConfig) (fuel : Nat) (last : QTextCursor)
    (ed : VEdit) : Except Fault VEdit :=
  let cursor := ed.cursor
  -- Judge whether we have trailing space at current line.
  let text := blockText ed.doc cursor.position
  match lastIsSpace text with
  | Except.error f => Except.error f
  | Except.ok space =>
    let afterSpace : Except Fault VEdit :=
      if space then Fault.ofOption (ed.highlightTrailingSpace H vconfig fuel)
      else Except.ok ed
    match afterSpace with
    | Except.error f => Except.error f
    | Except.ok ed1 =>
      -- Handle word-wrap in one block.
      if (positionInBlock ed.doc last.position : Int) - (L.columnNumber ed.doc last : Int)
          ≠ (positionInBlock ed.doc cursor.position : Int) - (L.columnNumber ed.doc cursor : Int)
      then
        Fault.ofOption (ed1.highlightCurrentLine L vconfig readOnly m_config fuel)
      else
        Except.ok ed1

/-- `VEdit::handleCursorPositionChanged()`; `lastCursor` is the static variable
of the function, `none` for the null cursor, and the result holds its new value
and the widget. -/
def VEdit.handleCursorPositionChanged (H : DocFind) (L : TextLayout) (vconfig : VConfigManager)
    (readOnly : Bool) (m_config : VEditConfig) (fuel : Nat) (lastCursor : Option QTextCursor)
    (ed : VEdit) : Except Fault (Option QTextCursor × VEdit) :=
  let cursor := ed.cursor
  let after : Except Fault VEdit :=
    match lastCursor with
    | none => ed.recomputeLineAndSpace H L vconfig readOnly m_config fuel
    | some last =>
      if blockNumber ed.doc cursor.position != blockNumber ed.doc last.position then
        ed.recomputeLineAndSpace H L vconfig readOnly m_config fuel
      else
        ed.sameBlockReaction H L vconfig readOnly m_config fuel last
  match after with
  | Except.error f => Except.error f
  | Except.ok ed1 => Except.ok (some cursor, ed1)

/-- A text layout without word wrap: every block is one visual line, moving
down goes to the start of the next block or stays in the last one, and the
column is the position in the block. -/
def plainLayout : TextLayout :=
  { moveDown := fun doc c =>
      let next := blockPosition doc c.position + blockLength doc c.position
      if next ≤ doc.length then ⟨next, next⟩ else c
    columnNumber := fun doc c => positionInBlock doc c.position }

/-- A configuration snapshot that highlights the whole block. -/
def sampleSnapshot : VEditConfig :=
  { m_tabStopWidth := 32, m_expandTab := true, m_tabSpaces := [' ', ' ', ' ', ' '],
    m_enableVimMode := true, m_cursorLineBg := ⟨"Grey"⟩, m_highlightWholeBlock := true }

/-! ## Theorems -/

/-! ### Single-step find -/

/-- A host search without a match leaves the widget. -/
theorem VEdit.find_of_none {H : DocFind} {needle : Needle} {flags : FindFlags} {ed : VEdit}
    (h : H ed.doc needle (findStart flags ed.cursor) flags = none) :
    ed.find H needle flags = (false, ed) := by
  unfold VEdit.find; rw [h]

/-- A host search with a match makes it the widget's cursor. -/
theorem VEdit.find_of_some {H : DocFind} {needle : Needle} {flags : FindFlags} {ed : VEdit}
    {c : QTextCursor} (h : H ed.doc needle (findStart flags ed.cursor) flags = some c) :
    ed.find H needle flags = (true, ed.setTextCursor c) := by
  unfold VEdit.find; rw [h]

/-- The loop of `findTextHelper` with fuel for two rounds, written out: the
search from the cursor, and after a miss the search from the other end of the
document. -/
theorem VEdit.findTextHelper_eq (H : DocFind) (n : Nat) (p_text : List Char)
    (p_options : FindOptions) (p_forward : Bool) (ed : VEdit) :
    ed.findTextHelper H (n + 2) p_text p_options p_forward
      = (match H ed.doc (needleOf p_text p_options)
            (findStart (findFlagsOf p_options p_forward) ed.cursor)
            (findFlagsOf p_options p_forward) with
        | some c => some ⟨true, false, 0, ed.setTextCursor c⟩
        | none =>
          match H ed.doc (needleOf p_text p_options)
              (if p_forward then 0 else ed.doc.length) (findFlagsOf p_options p_forward) with
          | some c => some ⟨true, true, 1, ed.setTextCursor c⟩
          | none => some ⟨false, true, 1, ed⟩) := by
  have hstart : ∀ k : Nat, findStart (findFlagsOf p_options p_forward) ⟨k, k⟩ = k := by
    intro k; simp [findStart, QTextCursor.selectionStart, QTextCursor.selectionEnd]
  cases h1 : H ed.doc (needleOf p_text p_options)
      (findStart (findFlagsOf p_options p_forward) ed.cursor) (findFlagsOf p_options p_forward)
  · have e1 := VEdit.find_of_none h1
    cases h2 : H ed.doc (needleOf p_text p_options)
        (if p_forward then 0 else ed.doc.length) (findFlagsOf p_options p_forward)
    · have e2 : (ed.setTextCursor ⟨if p_forward then 0 else ed.doc.length,
          if p_forward then 0 else ed.doc.length⟩).find H (needleOf p_text p_options)
          (findFlagsOf p_options p_forward)
          = (false, ed.setTextCursor ⟨if p_forward then 0 else ed.doc.length,
              if p_forward then 0 else ed.doc.length⟩) := by
        apply VEdit.find_of_none
        simpa [VEdit.setTextCursor, hstart] using h2
      cases p_forward <;>
        simp_all [VEdit.findTextHelper, VEdit.findTextHelperLoop, QTextCursor.moveToStart,
          QTextCursor.moveToEnd, QTextCursor.clearSelection, VEdit.setTextCursor]
    · rename_i c
      have e2 : (ed.setTextCursor ⟨if p_forward then 0 else ed.doc.length,
          if p_forward then 0 else ed.doc.length⟩).find H (needleOf p_text p_options)
          (findFlagsOf p_options p_forward)
          = (true, (ed.setTextCursor ⟨if p_forward then 0 else ed.doc.length,
              if p_forward then 0 else ed.doc.length⟩).setTextCursor c) := by
        apply VEdit.find_of_some
        simpa [VEdit.setTextCursor, hstart] using h2
      cases p_forward <;>
        simp_all [VEdit.findTextHelper, VEdit.findTextHelperLoop, QTextCursor.moveToStart,
          QTextCursor.moveToEnd, QTextCursor.clearSelection, VEdit.setTextCursor]
  · have e1 := VEdit.find_of_some h1
    simp [VEdit.findTextHelper, VEdit.findTextHelperLoop, e1]

/-- C1: when the search text is not empty and the host search finds no match of
it from any position of the document, `findTextHelper` (with fuel for its two
rounds) returns false after one wrap and leaves the whole widget as it was, and
`findText` returns false and leaves the text cursor (position and selection)
and the document as they were, for every direction and every option set. -/
theorem VEdit.findText_no_match (H : DocFind) (vconfig : VConfigManager) (fuel : Nat)
    (p_text : List Char) (p_options : FindOptions) (p_forward : Bool) (ed : VEdit)
    (hfuel : 2 ≤ fuel) (htext : p_text ≠ [])
    (hnone : ∀ pos : Nat,
      H ed.doc (needleOf p_text p_options) pos (findFlagsOf p_options p_forward) = none) :
    ed.findTextHelper H fuel p_text p_options p_forward = some ⟨false, true, 1, ed⟩
    ∧ ∃ ed1 : VEdit,
        ed.findText H vconfig fuel p_text p_options p_forward = some (false, ed1)
        ∧ ed1.cursor = ed.cursor ∧ ed1.doc = ed.doc := by
  obtain ⟨n, rfl⟩ : ∃ n, fuel = n + 2 := ⟨fuel - 2, by omega⟩
  have hhelper : ed.findTextHelper H (n + 2) p_text p_options p_forward
      = some ⟨false, true, 1, ed⟩ := by
    rw [VEdit.findTextHelper_eq]
    simp [hnone]
  refine ⟨hhelper, ?_⟩
  have hne : p_text.isEmpty = false := by
    cases p_text with
    | nil => exact absurd rfl htext
    | cons a t => rfl
  simp only [VEdit.findText, hne, hhelper, VEdit.highlightSearchedWord, List.isEmpty_nil,
    Bool.or_true, if_true, Bool.false_eq_true, if_false]
  split_ifs
  · exact ⟨_, rfl, rfl, rfl⟩
  · exact ⟨_, rfl, rfl, rfl⟩

/-- Witness of C1: the text "x" is nowhere in "abc"; a forward search from the
selection of "b" fails and leaves the widget. -/
theorem VEdit.findText_no_match_witness :
    (sampleEdit ['a', 'b', 'c'] ⟨1, 2⟩).findTextHelper sampleFind 2 ['x'] (plainOptions true) true
      = some ⟨false, true, 1, sampleEdit ['a', 'b', 'c'] ⟨1, 2⟩⟩
    ∧ ∃ ed1 : VEdit,
        (sampleEdit ['a', 'b', 'c'] ⟨1, 2⟩).findText sampleFind sampleConfig 2 ['x']
          (plainOptions true) true = some (false, ed1)
        ∧ ed1.cursor = (sampleEdit ['a', 'b', 'c'] ⟨1, 2⟩).cursor
        ∧ ed1.doc = (sampleEdit ['a', 'b', 'c'] ⟨1, 2⟩).doc :=
  VEdit.findText_no_match sampleFind sampleConfig 2 ['x'] (plainOptions true) true
    (sampleEdit ['a', 'b', 'c'] ⟨1, 2⟩) (le_refl 2) (by decide)
    (by
      intro pos
      match pos with
      | 0 => decide
      | 1 => decide
      | 2 => decide
      | k + 3 => simp [sampleFind, exactFind, needleOf, plainOptions, findFlagsOf, sampleEdit,
          firstMatch])

/-! ### Replace one -/

/-- Replacing the range from `s` to `e` by `t`: removing the range and then
inserting at `s` gives the text before `s`, then `t`, then the text from `e`. -/
theorem remove_then_insert (doc t : List Char) (s e : Nat) (h : s ≤ e) :
    (doc.take s ++ doc.drop e).take s ++ t ++ (doc.take s ++ doc.drop e).drop s
      = doc.take s ++ t ++ doc.drop e := by
  by_cases hs : s ≤ doc.length
  · have hl : (doc.take s).length = s := by simp [hs]
    rw [List.take_left' hl, List.drop_left' hl]
  · have h1 : doc.take s = doc := List.take_of_length_le (by omega)
    have h2 : doc.drop e = [] := List.drop_of_length_le (by omega)
    have h3 : doc.take s = doc := h1
    rw [h1, h2, List.append_nil, h3, List.drop_of_length_le (by omega)]

/-- A cursor with a selection collapses to the selection start when its
selection is removed. -/
theorem VEdit.adjustCursor_removed_selection (c : QTextCursor) :
    VEdit.adjustCursor (VEdit.adjustRemoved c.selectionStart c.selectionEnd) c
      = ⟨c.selectionStart, c.selectionStart⟩ := by
  simp only [VEdit.adjustCursor, VEdit.adjustRemoved, QTextCursor.selectionStart,
    QTextCursor.selectionEnd]
  rcases Nat.lt_trichotomy c.anchor c.position with h | h | h
  · have h1 : min c.anchor c.position = c.anchor := by omega
    have h2 : max c.anchor c.position = c.position := by omega
    rw [h1, h2]
    congr 1
    · simp [h]
    · have : ¬ c.position < c.anchor := by omega
      simp only [this, if_false, lt_irrefl]; omega
  · rw [h]; simp
  · have h1 : min c.anchor c.position = c.position := by omega
    have h2 : max c.anchor c.position = c.anchor := by omega
    rw [h1, h2]
    congr 1
    · have : ¬ c.anchor < c.position := by omega
      simp only [this, if_false, lt_irrefl]; omega
    · simp [h]

/-- The document after `removeSelectedText` and `insertText` through a cursor
with a selection: the selected range is replaced by the text. -/
theorem VEdit.replace_selection_doc (c : QTextCursor) (t : List Char) (ed : VEdit)
    (hsel : c.hasSelection = true) :
    (VEdit.insertText (VEdit.removeSelectedText c ed).1 t (VEdit.removeSelectedText c ed).2).2.doc
        = ed.doc.take c.selectionStart ++ t ++ ed.doc.drop c.selectionEnd
    ∧ (VEdit.insertText (VEdit.removeSelectedText c ed).1 t (VEdit.removeSelectedText c ed).2).1
        = ⟨c.selectionStart + t.length, c.selectionStart + t.length⟩ := by
  have hle : c.selectionStart ≤ c.selectionEnd := by
    simp only [QTextCursor.selectionStart, QTextCursor.selectionEnd]; omega
  have hrem : VEdit.removeSelectedText c ed
      = (⟨c.selectionStart, c.selectionStart⟩,
          ed.applyChange (ed.doc.take c.selectionStart ++ ed.doc.drop c.selectionEnd)
            (VEdit.adjustRemoved c.selectionStart c.selectionEnd)) := by
    simp only [VEdit.removeSelectedText, hsel, if_true, VEdit.adjustCursor_removed_selection]
  have hno : (⟨c.selectionStart, c.selectionStart⟩ : QTextCursor).hasSelection = false := by
    simp [QTextCursor.hasSelection]
  rw [hrem]
  cases t with
  | nil =>
    simp [VEdit.insertText, VEdit.removeSelectedText, hno, VEdit.applyChange]
  | cons a t =>
    have := remove_then_insert ed.doc (a :: t) c.selectionStart c.selectionEnd hle
    refine ⟨?_, ?_⟩
    · simp only [VEdit.insertText, VEdit.removeSelectedText, hno, VEdit.applyChange,
        List.isEmpty_cons, Bool.false_eq_true, if_false]
      exact this
    · simp [VEdit.insertText, VEdit.removeSelectedText, hno, VEdit.applyChange,
        VEdit.adjustCursor, VEdit.adjustInserted]

/-- The step of `replaceText` after a search that found the cursor `c`: with
the bounds of the saved selection the range is replaced, with other bounds the
saved cursor is put back. -/
theorem VEdit.replaceMatched_found (ed : VEdit) (c0 c : QTextCursor) (w : Bool) (k : Nat)
    (t : List Char) (hsel : ed.cursor.hasSelection = true) :
    ((c.selectionStart == ed.cursor.selectionStart
        && c.selectionEnd == ed.cursor.selectionEnd) = true →
      (VEdit.replaceMatched ed.cursor t ⟨true, w, k, (ed.setTextCursor c0).setTextCursor c⟩).doc
        = ed.doc.take ed.cursor.selectionStart ++ t ++ ed.doc.drop ed.cursor.selectionEnd)
    ∧ ((c.selectionStart == ed.cursor.selectionStart
        && c.selectionEnd == ed.cursor.selectionEnd) = false →
      VEdit.replaceMatched ed.cursor t ⟨true, w, k, (ed.setTextCursor c0).setTextCursor c⟩
        = ed) := by
  constructor
  · intro hm
    have hm2 : (ed.cursor.selectionStart == c.selectionStart
        && ed.cursor.selectionEnd == c.selectionEnd) = true := by
      simp only [Bool.and_eq_true, beq_iff_eq] at hm ⊢
      exact ⟨hm.1.symm, hm.2.symm⟩
    simp only [VEdit.replaceMatched, VEdit.setTextCursor, hm2, Bool.true_and, if_true]
    exact (VEdit.replace_selection_doc ed.cursor t _ hsel).1
  · intro hm
    have hm2 : (ed.cursor.selectionStart == c.selectionStart
        && ed.cursor.selectionEnd == c.selectionEnd) = false := by
      simp only [Bool.and_eq_false_imp, beq_iff_eq, beq_eq_false_iff_ne] at hm ⊢
      intro h
      exact fun h3 => hm h.symm h3.symm
    simp only [VEdit.replaceMatched, VEdit.setTextCursor, hm2, Bool.true_and,
      Bool.false_eq_true, if_false]

/-- The step of `replaceText` after a search that found nothing: the widget is
the one the search left, with the saved cursor. -/
theorem VEdit.replaceMatched_missed (cursor : QTextCursor) (w : Bool) (k : Nat)
    (t : List Char) (ed1 : VEdit) :
    VEdit.replaceMatched cursor t ⟨false, w, k, ed1⟩ = ed1.setTextCursor cursor := by
  simp [VEdit.replaceMatched]

/-- C5: `replaceText` with `p_findNext = false` (and fuel for the two rounds of
`findTextHelper`) returns, and it changes the document only if the cursor has a
selection and the forward search begun at the selection start locates a match
whose start and end are those of the selection. In that case the selected range
is replaced by the replacement text; in every other case (no selection, no
match, a match with other bounds) the document, the cursor with its selection
and the rest of the widget are as before. -/
theorem VEdit.replaceText_frame (H : DocFind) (vconfig : VConfigManager) (fuel : Nat)
    (p_text : List Char) (p_options : FindOptions) (p_replaceText : List Char) (ed : VEdit)
    (hfuel : 2 ≤ fuel) :
    ∃ ed1 : VEdit,
      ed.replaceText H vconfig fuel p_text p_options p_replaceText false = some ed1
      ∧ (selectionIsLocatedMatch H p_text p_options ed = true →
          ed1.doc = ed.doc.take ed.cursor.selectionStart ++ p_replaceText
            ++ ed.doc.drop ed.cursor.selectionEnd)
      ∧ (selectionIsLocatedMatch H p_text p_options ed = false → ed1 = ed)
      ∧ (ed1.doc ≠ ed.doc → selectionIsLocatedMatch H p_text p_options ed = true) := by
  obtain ⟨n, rfl⟩ : ∃ n, fuel = n + 2 := ⟨fuel - 2, by omega⟩
  have key : ∃ ed1 : VEdit,
      ed.replaceText H vconfig (n + 2) p_text p_options p_replaceText false = some ed1
      ∧ (selectionIsLocatedMatch H p_text p_options ed = true →
          ed1.doc = ed.doc.take ed.cursor.selectionStart ++ p_replaceText
            ++ ed.doc.drop ed.cursor.selectionEnd)
      ∧ (selectionIsLocatedMatch H p_text p_options ed = false → ed1 = ed) := by
    cases hsel : ed.cursor.hasSelection
    · refine ⟨ed, ?_, ?_, ?_⟩
      · simp [VEdit.replaceText, hsel]
      · simp [selectionIsLocatedMatch, hsel]
      · intro _; rfl
    · have hstart : findStart (findFlagsOf p_options true)
          (ed.setTextCursor ((ed.cursor.setPosition ed.cursor.selectionStart).clearSelection)).cursor
          = ed.cursor.selectionStart := by
        simp [findStart, findFlagsOf, VEdit.setTextCursor, QTextCursor.setPosition,
          QTextCursor.clearSelection, QTextCursor.selectionEnd]
      have hdoc : (ed.setTextCursor
          ((ed.cursor.setPosition ed.cursor.selectionStart).clearSelection)).doc = ed.doc := rfl
      simp only [VEdit.replaceText, hsel, if_true, VEdit.findTextHelper_eq, hstart, hdoc,
        selectionIsLocatedMatch, locateForward, Bool.true_and, Bool.false_eq_true, if_false]
      cases h1 : H ed.doc (needleOf p_text p_options) ed.cursor.selectionStart
          (findFlagsOf p_options true)
      · cases h2 : H ed.doc (needleOf p_text p_options) 0 (findFlagsOf p_options true)
        · refine ⟨ed, ?_, ?_, ?_⟩
          · simp only [Option.map_some', Option.some_bind, VEdit.replaceMatched_missed]
            cases ed; rfl
          · intro h; simp at h
          · intro _; rfl
        · rename_i c
          have hf := VEdit.replaceMatched_found ed
            ((ed.cursor.setPosition ed.cursor.selectionStart).clearSelection) c true 1
            p_replaceText hsel
          exact ⟨_, by simp only [Option.map_some', Option.some_bind], hf.1, hf.2⟩
      · rename_i c
        have hf := VEdit.replaceMatched_found ed
          ((ed.cursor.setPosition ed.cursor.selectionStart).clearSelection) c false 0
          p_replaceText hsel
        exact ⟨_, by simp only [Option.map_some', Option.some_bind], hf.1, hf.2⟩
  obtain ⟨ed1, h1, h2, h3⟩ := key
  refine ⟨ed1, h1, h2, h3, ?_⟩
  intro hne
  by_contra hc
  have : selectionIsLocatedMatch H p_text p_options ed = false := by
    simpa using hc
  exact hne (by rw [h3 this])

/-- Witness of C5: in "abc abc" with the second "abc" selected, replacing "abc"
by "xy" gives "abc xy". -/
theorem VEdit.replaceText_frame_witness :
    ∃ ed1 : VEdit,
      (sampleEdit ['a', 'b', 'c', ' ', 'a', 'b', 'c'] ⟨4, 7⟩).replaceText sampleFind sampleConfig
          2 ['a', 'b', 'c'] (plainOptions true) ['x', 'y'] false = some ed1
      ∧ ed1.doc = ['a', 'b', 'c', ' ', 'x', 'y'] := by
  obtain ⟨ed1, h1, h2, _⟩ := VEdit.replaceText_frame sampleFind sampleConfig 2 ['a', 'b', 'c']
    (plainOptions true) ['x', 'y'] (sampleEdit ['a', 'b', 'c', ' ', 'a', 'b', 'c'] ⟨4, 7⟩)
    (le_refl 2)
  exact ⟨ed1, h1, (h2 (by decide)).trans (by decide)⟩

/-! ### Find all -/

/-- The loop of `findTextAll` returns for a host search that makes progress,
given fuel for one round more than the document has positions left, and it
appends to the results the matches found one after the other from the start
position. -/
theorem VEdit.findTextAllLoop_progressive (H : DocFind) (doc : List Char) (needle : Needle)
    (flags : FindFlags) (hP : Progressive H doc needle flags) :
    ∀ (fuel pos : Nat) (acc : List QTextCursor), 1 ≤ fuel → doc.length + 1 ≤ fuel + pos →
      ∃ ms : List QTextCursor,
        VEdit.findTextAllLoop H doc needle flags fuel pos acc = some (acc ++ ms)
        ∧ GreedyFrom H doc needle flags pos ms := by
  intro fuel
  induction fuel with
  | zero => intro pos acc h; omega
  | succ k ih =>
    intro pos acc _ hlen
    cases hfind : H doc needle pos flags with
    | none =>
      exact ⟨[], by simp [VEdit.findTextAllLoop, hfind], hfind⟩
    | some c =>
      obtain ⟨h1, h2, h3⟩ := hP pos c hfind
      obtain ⟨ms, hms, hg⟩ := ih c.selectionEnd (acc ++ [c]) (by omega) (by omega)
      refine ⟨c :: ms, ?_, hfind, hg⟩
      simp only [VEdit.findTextAllLoop, hfind, hms, List.append_assoc, List.singleton_append]

/-- Matches found one after the other by a search that makes progress lie at or
after the start position, are not empty, end in the document, and each starts
at or after the end of the one before. -/
theorem GreedyFrom.ordered (H : DocFind) (doc : List Char) (needle : Needle)
    (flags : FindFlags) (hP : Progressive H doc needle flags) :
    ∀ (ms : List QTextCursor) (pos : Nat), GreedyFrom H doc needle flags pos ms →
      (∀ m ∈ ms, pos ≤ m.selectionStart ∧ m.selectionStart < m.selectionEnd
        ∧ m.selectionEnd ≤ doc.length)
      ∧ ms.Pairwise (fun a b => a.selectionEnd ≤ b.selectionStart) := by
  intro ms
  induction ms with
  | nil => intro pos _; simp
  | cons m rest ih =>
    intro pos hg
    obtain ⟨hm, hrest⟩ := hg
    obtain ⟨h1, h2, h3⟩ := hP pos m hm
    obtain ⟨ih1, ih2⟩ := ih m.selectionEnd hrest
    refine ⟨?_, ?_⟩
    · intro x hx
      rcases List.mem_cons.mp hx with rfl | hx
      · exact ⟨h1, h2, h3⟩
      · obtain ⟨a, b, c⟩ := ih1 x hx
        exact ⟨by omega, b, c⟩
    · exact List.pairwise_cons.mpr ⟨fun x hx => (ih1 x hx).1, ih2⟩

/-! ### Trailing-space overlay -/

/-- The filter loop keeps the order: what it returns is a sublist. -/
theorem VEdit.eraseEndingAt_sublist (p : Nat) (l : List ExtraSelection) :
    (VEdit.eraseEndingAt p l).Sublist l := by
  induction l with
  | nil => exact List.Sublist.slnil
  | cons x xs ih =>
    simp only [VEdit.eraseEndingAt]
    split_ifs
    · exact List.sublist_cons_self x xs
    · exact ih.cons₂ x

/-- The filter loop erases at most one entry. -/
theorem VEdit.eraseEndingAt_length (p : Nat) (l : List ExtraSelection) :
    l.length ≤ (VEdit.eraseEndingAt p l).length + 1 := by
  induction l with
  | nil => simp [VEdit.eraseEndingAt]
  | cons x xs ih =>
    simp only [VEdit.eraseEndingAt]
    split_ifs
    · simp
    · simp only [List.length_cons]; omega

/-- The filter loop erases the first entry that ends at `p`. -/
theorem VEdit.eraseEndingAt_split (p : Nat) (l1 l2 : List ExtraSelection) (x : ExtraSelection)
    (h1 : ∀ y ∈ l1, y.cursor.selectionEnd ≠ p) (hx : x.cursor.selectionEnd = p) :
    VEdit.eraseEndingAt p (l1 ++ x :: l2) = l1 ++ l2 := by
  induction l1 with
  | nil => simp [VEdit.eraseEndingAt, hx]
  | cons y ys ih =>
    have hy : y.cursor.selectionEnd ≠ p := h1 y (List.mem_cons_self y ys)
    have hys : ∀ z ∈ ys, z.cursor.selectionEnd ≠ p :=
      fun z hz => h1 z (List.mem_cons_of_mem y hz)
    simp [VEdit.eraseEndingAt, hy, ih hys]

/-- The filter loop erases nothing when no entry ends at `p`. -/
theorem VEdit.eraseEndingAt_of_none (p : Nat) (l : List ExtraSelection)
    (h : ∀ y ∈ l, y.cursor.selectionEnd ≠ p) : VEdit.eraseEndingAt p l = l := by
  induction l with
  | nil => rfl
  | cons y ys ih =>
    have hy : y.cursor.selectionEnd ≠ p := h y (List.mem_cons_self y ys)
    have hys : ∀ z ∈ ys, z.cursor.selectionEnd ≠ p :=
      fun z hz => h z (List.mem_cons_of_mem y hz)
    simp [VEdit.eraseEndingAt, hy, ih hys]

/-- When the entries end at distinct positions, no entry the filter loop leaves
ends at `p`. -/
theorem VEdit.eraseEndingAt_clears (p : Nat) (l : List ExtraSelection)
    (hd : l.Pairwise (fun a b => a.cursor.selectionEnd ≠ b.cursor.selectionEnd)) :
    ∀ y ∈ VEdit.eraseEndingAt p l, y.cursor.selectionEnd ≠ p := by
  induction l with
  | nil => intro y hy; simp [VEdit.eraseEndingAt] at hy
  | cons x xs ih =>
    obtain ⟨hx, hxs⟩ := List.pairwise_cons.mp hd
    intro y hy
    simp only [VEdit.eraseEndingAt] at hy
    split_ifs at hy with hxp
    · have hxp2 : x.cursor.selectionEnd = p := by simpa using hxp
      intro hyp
      exact hx y hy (hxp2.trans hyp.symm)
    · rcases List.mem_cons.mp hy with rfl | hy
      · simpa using hxp
      · exact ih hxs y hy

/-- The overlay slot written by `highlightTextAll` for a text that is not empty:
the matches of `findTextAll` with the format, passed through the filter; the
document and the cursor stay. -/
theorem VEdit.highlightTextAll_slot (H : DocFind) (fuel : Nat) (p_text : List Char)
    (p_options : FindOptions) (p_id : SelectionId) (p_format : QTextCharFormat)
    (p_filter : Option VEdit.SelectionFilter) (ed : VEdit) (ms : List QTextCursor)
    (htext : p_text ≠ []) (hall : ed.findTextAll H fuel p_text p_options = some ms) :
    ∃ ed1 : VEdit,
      ed.highlightTextAll H fuel p_text p_options p_id p_format p_filter = some ed1
      ∧ ed1.doc = ed.doc ∧ ed1.cursor = ed.cursor
      ∧ ed1.m_extraSelections.get p_id
          = (match p_filter with
            | some f =>
              f { ed with m_extraSelections :=
                    ed.m_extraSelections.set p_id (ms.map fun c => ⟨c, p_format⟩) }
                (ms.map fun c => ⟨c, p_format⟩)
            | none => ms.map fun c => ⟨c, p_format⟩) := by
  have hne : p_text.isEmpty = false := by
    cases p_text with
    | nil => exact absurd rfl htext
    | cons a t => rfl
  have hget : ∀ (t : ExtraSelections) (l : List ExtraSelection), (t.set p_id l).get p_id = l := by
    intro t l; cases p_id <;> rfl
  cases p_filter with
  | none =>
    refine ⟨_, by simp only [VEdit.highlightTextAll, hne, hall]; rfl, ?_, ?_, ?_⟩
    · simp only [VEdit.highlightExtraSelections, VEdit.doHighlightExtraSelections]
      split_ifs <;> rfl
    · simp only [VEdit.highlightExtraSelections, VEdit.doHighlightExtraSelections]
      split_ifs <;> rfl
    · simp only [VEdit.highlightExtraSelections, VEdit.doHighlightExtraSelections]
      split_ifs <;> exact hget _ _
  | some f =>
    refine ⟨_, by simp only [VEdit.highlightTextAll, hne, hall]; rfl, ?_, ?_, ?_⟩
    · simp only [VEdit.highlightExtraSelections, VEdit.doHighlightExtraSelections]
      split_ifs <;> rfl
    · simp only [VEdit.highlightExtraSelections, VEdit.doHighlightExtraSelections]
      split_ifs <;> rfl
    · simp only [VEdit.highlightExtraSelections, VEdit.doHighlightExtraSelections]
      split_ifs <;> simp only [hget]

/-- C6: with trailing-space highlighting enabled, a host search for the
trailing-space pattern that makes progress, and fuel for one round more than
the document has positions, `findTextAll` returns the matches `ms` of the
pattern and `highlightTrailingSpace` returns with the TrailingSpace slot holding
them in order with the trailing-space colour, except that with the cursor at
the end of its block the match that ends at the cursor position is erased, so
that no entry left ends there. With the cursor elsewhere nothing is erased; in
every case at most one entry is erased and the others keep their order. -/
theorem VEdit.highlightTrailingSpace_slot (H : DocFind) (vconfig : VConfigManager)
    (fuel : Nat) (ed : VEdit)
    (henabled : vconfig.enableTrailingSpaceHighlight = true)
    (hP : Progressive H ed.doc (needleOf VEdit.trailingSpacePattern VEdit.trailingSpaceOptions)
      (findFlagsOf VEdit.trailingSpaceOptions true))
    (hfuel : ed.doc.length + 1 ≤ fuel) :
    ∃ (ms : List QTextCursor) (ed1 : VEdit),
      ed.findTextAll H fuel VEdit.trailingSpacePattern VEdit.trailingSpaceOptions = some ms
      ∧ GreedyFrom H ed.doc (needleOf VEdit.trailingSpacePattern VEdit.trailingSpaceOptions)
          (findFlagsOf VEdit.trailingSpaceOptions true) 0 ms
      ∧ ed.highlightTrailingSpace H vconfig fuel = some ed1
      ∧ (VEdit.atBlockEnd ed.doc ed.cursor = false →
          ed1.m_extraSelections.get SelectionId.TrailingSapce
            = ms.map fun c => ⟨c, ⟨ed.m_trailingSpaceColor, false⟩⟩)
      ∧ (VEdit.atBlockEnd ed.doc ed.cursor = true →
          (∀ x ∈ ed1.m_extraSelections.get SelectionId.TrailingSapce,
            x.cursor.selectionEnd ≠ ed.cursor.position)
          ∧ ((∀ m ∈ ms, m.selectionEnd ≠ ed.cursor.position) →
              ed1.m_extraSelections.get SelectionId.TrailingSapce
                = ms.map fun c => ⟨c, ⟨ed.m_trailingSpaceColor, false⟩⟩)
          ∧ (∀ (l1 l2 : List QTextCursor) (m : QTextCursor), ms = l1 ++ m :: l2 →
              m.selectionEnd = ed.cursor.position →
              ed1.m_extraSelections.get SelectionId.TrailingSapce
                = (l1 ++ l2).map fun c => ⟨c, ⟨ed.m_trailingSpaceColor, false⟩⟩))
      ∧ (ed1.m_extraSelections.get SelectionId.TrailingSapce).Sublist
          (ms.map fun c => ⟨c, ⟨ed.m_trailingSpaceColor, false⟩⟩)
      ∧ ms.length ≤ (ed1.m_extraSelections.get SelectionId.TrailingSapce).length + 1 := by
  obtain ⟨ms, hloop, hgreedy⟩ := VEdit.findTextAllLoop_progressive H ed.doc _ _ hP fuel 0 []
    (by omega) (by omega)
  have hall : ed.findTextAll H fuel VEdit.trailingSpacePattern VEdit.trailingSpaceOptions
      = some ms := by
    simpa [VEdit.findTextAll, VEdit.trailingSpacePattern] using hloop
  obtain ⟨hbounds, hpair⟩ := GreedyFrom.ordered H ed.doc _ _ hP ms 0 hgreedy
  obtain ⟨ed1, hrun, -, -, hslot⟩ := VEdit.highlightTextAll_slot H fuel
    VEdit.trailingSpacePattern VEdit.trailingSpaceOptions SelectionId.TrailingSapce
    ⟨ed.m_trailingSpaceColor, false⟩ (some VEdit.trailingSpaceFilter) ed ms
    (by simp [VEdit.trailingSpacePattern]) hall
  have hends : (ms.map fun c => (⟨c, ⟨ed.m_trailingSpaceColor, false⟩⟩ : ExtraSelection)).Pairwise
      (fun a b => a.cursor.selectionEnd ≠ b.cursor.selectionEnd) := by
    rw [List.pairwise_map]
    have hmem := List.pairwise_of_forall_mem_list
      (l := ms) (r := fun a b : QTextCursor => a ∈ ms ∧ b ∈ ms) (fun a ha b hb => ⟨ha, hb⟩)
    refine (hpair.and hmem).imp ?_
    intro a b hab
    have hb := (hbounds b hab.2.2).2.1
    have := hab.1
    simp only [ne_eq]
    omega
  refine ⟨ms, ed1, hall, hgreedy, ?_, ?_, ?_, ?_, ?_⟩
  · simpa [VEdit.highlightTrailingSpace, henabled] using hrun
  · intro hnot
    rw [hslot]
    simp [VEdit.trailingSpaceFilter, hnot]
  · intro hat
    have hfilter : ed1.m_extraSelections.get SelectionId.TrailingSapce
        = VEdit.eraseEndingAt ed.cursor.position
            (ms.map fun c => ⟨c, ⟨ed.m_trailingSpaceColor, false⟩⟩) := by
      rw [hslot]
      simp [VEdit.trailingSpaceFilter, hat]
    refine ⟨?_, ?_, ?_⟩
    · rw [hfilter]
      exact VEdit.eraseEndingAt_clears _ _ hends
    · intro hno
      rw [hfilter]
      apply VEdit.eraseEndingAt_of_none
      intro y hy
      obtain ⟨m, hm, rfl⟩ := List.mem_map.mp hy
      exact hno m hm
    · intro l1 l2 m hsplit hm
      rw [hfilter, hsplit, List.map_append, List.map_cons, List.map_append]
      apply VEdit.eraseEndingAt_split
      · intro y hy
        obtain ⟨a, ha, rfl⟩ := List.mem_map.mp hy
        have hpw := hends
        rw [hsplit, List.map_append, List.map_cons, List.pairwise_append] at hpw
        have := hpw.2.2 _ (List.mem_map.mpr ⟨a, ha, rfl⟩) _ (List.mem_cons_self _ _)
        simpa [hm] using this
      · exact hm
  · rw [hslot]
    simp only [VEdit.trailingSpaceFilter]
    split_ifs
    · exact List.Sublist.refl _
    · exact VEdit.eraseEndingAt_sublist _ _
  · rw [hslot]
    simp only [VEdit.trailingSpaceFilter]
    split_ifs
    · simp
    · have := VEdit.eraseEndingAt_length ed.cursor.position
        (ms.map fun c => ⟨c, ⟨ed.m_trailingSpaceColor, false⟩⟩)
      simpa using this

/-- A run of white space up to the block end is not empty and lies in the
text. -/
theorem spaceRun_bounds : ∀ (l : List Char) (n : Nat), spaceRun l = some n →
    1 ≤ n ∧ n ≤ l.length := by
  intro l
  induction l with
  | nil => intro n h; simp [spaceRun] at h
  | cons c cs ih =>
    intro n h
    simp only [spaceRun] at h
    split_ifs at h
    cases hrun : spaceRun cs with
    | some k =>
      rw [hrun] at h
      simp only [Option.some.injEq] at h
      have := ih k hrun
      simp only [List.length_cons]
      omega
    | none =>
      rw [hrun] at h
      cases cs with
      | nil => simp only [Option.some.injEq] at h; subst h; simp
      | cons d ds =>
        simp only at h
        split_ifs at h
        simp only [Option.some.injEq] at h
        subst h
        simp

/-- The first run of white space up to a block end is not empty and lies in the
text. -/
theorem firstSpaceRun_bounds : ∀ (l : List Char) (r : Nat × Nat), firstSpaceRun l = some r →
    1 ≤ r.2 ∧ r.1 + r.2 ≤ l.length := by
  intro l
  induction l with
  | nil => intro r h; simp [firstSpaceRun] at h
  | cons c cs ih =>
    intro r h
    simp only [firstSpaceRun] at h
    cases hrun : spaceRun (c :: cs) with
    | some n =>
      rw [hrun] at h
      simp only [Option.some.injEq] at h
      subst h
      have := spaceRun_bounds (c :: cs) n hrun
      simpa using this
    | none =>
      rw [hrun] at h
      cases hrest : firstSpaceRun cs with
      | none => rw [hrest] at h; simp at h
      | some q =>
        rw [hrest] at h
        simp only [Option.map_some', Option.some.injEq] at h
        subst h
        have := ih q hrest
        simp only [List.length_cons]
        omega

/-- The modelled search for trailing white space makes progress on every
document. -/
theorem trailingSpaceFind_progressive (rest : DocFind) (doc : List Char) :
    Progressive (trailingSpaceFind rest) doc
      (needleOf VEdit.trailingSpacePattern VEdit.trailingSpaceOptions)
      (findFlagsOf VEdit.trailingSpaceOptions true) := by
  intro pos c h
  have hflags : (findFlagsOf VEdit.trailingSpaceOptions true).backward = false := rfl
  simp only [trailingSpaceFind, hflags, and_self, if_true] at h
  cases hrun : firstSpaceRun (doc.drop pos) with
  | none => rw [hrun] at h; simp at h
  | some r =>
    rw [hrun] at h
    simp only [Option.map_some', Option.some.injEq] at h
    subst h
    have hb := firstSpaceRun_bounds _ r hrun
    have hlen : (doc.drop pos).length = doc.length - pos := List.length_drop pos doc
    simp only [QTextCursor.selectionStart, QTextCursor.selectionEnd]
    omega

/-- Witness of C6: in the two blocks "a " and "b  " with the cursor at the end
of the first, the run behind "a" ends at the cursor and is left out, the run
behind "b" is highlighted. -/
theorem VEdit.highlightTrailingSpace_slot_witness :
    (VEdit.highlightTrailingSpace (trailingSpaceFind findsNothing) sampleConfig 7
        (sampleEdit ['a', ' ', '\n', 'b', ' ', ' '] ⟨2, 2⟩)).map
      (fun ed1 => ed1.m_extraSelections.get SelectionId.TrailingSapce)
      = some [⟨⟨4, 6⟩, ⟨⟨"Red"⟩, false⟩⟩]
    ∧ ∃ (ms : List QTextCursor) (ed1 : VEdit),
        VEdit.highlightTrailingSpace (trailingSpaceFind findsNothing) sampleConfig 7
          (sampleEdit ['a', ' ', '\n', 'b', ' ', ' '] ⟨2, 2⟩) = some ed1
        ∧ ms.length ≤ (ed1.m_extraSelections.get SelectionId.TrailingSapce).length + 1
        ∧ ∀ x ∈ ed1.m_extraSelections.get SelectionId.TrailingSapce,
            x.cursor.selectionEnd ≠ 2 := by
  refine ⟨by decide, ?_⟩
  obtain ⟨ms, ed1, _, _, hrun, _, hat, _, hlen⟩ :=
    VEdit.highlightTrailingSpace_slot (trailingSpaceFind findsNothing) sampleConfig 7
      (sampleEdit ['a', ' ', '\n', 'b', ' ', ' '] ⟨2, 2⟩) rfl
      (trailingSpaceFind_progressive findsNothing _) (by decide)
  exact ⟨ms, ed1, hrun, hlen, (hat (by decide)).1⟩

/-! ### The exact search -/

/-- A text that is not empty matches nowhere in the empty text. -/
theorem matchesAt_nil_right (fold : Char → Char) (cs : Bool) (t : List Char) (ht : t ≠ []) :
    matchesAt fold cs t [] = false := by
  cases t with
  | nil => exact absurd rfl ht
  | cons a t => rfl

/-- A match is no longer than the text it lies in. -/
theorem matchesAt_length (fold : Char → Char) (cs : Bool) :
    ∀ (t l : List Char), matchesAt fold cs t l = true → t.length ≤ l.length := by
  intro t
  induction t with
  | nil => intro l _; simp
  | cons a t ih =>
    intro l h
    cases l with
    | nil => simp [matchesAt] at h
    | cons b bs =>
      simp only [matchesAt, Bool.and_eq_true] at h
      have := ih bs h.2
      simp only [List.length_cons]
      omega

/-- The index `firstMatch` yields is an occurrence and the first one. -/
theorem firstMatch_some (fold : Char → Char) (cs : Bool) (t : List Char) :
    ∀ (l : List Char) (i : Nat), firstMatch fold cs t l = some i →
      matchesAt fold cs t (l.drop i) = true
      ∧ ∀ j, j < i → matchesAt fold cs t (l.drop j) = false := by
  intro l
  induction l with
  | nil => intro i h; simp [firstMatch] at h
  | cons b bs ih =>
    intro i h
    simp only [firstMatch] at h
    by_cases hm : matchesAt fold cs t (b :: bs) = true
    · simp only [hm, if_true, Option.some.injEq] at h
      subst h
      exact ⟨by simpa using hm, fun j hj => absurd hj (Nat.not_lt_zero j)⟩
    · simp only [hm, Bool.false_eq_true, if_false] at h
      cases hrest : firstMatch fold cs t bs with
      | none => rw [hrest] at h; simp at h
      | some k =>
        rw [hrest] at h
        simp only [Option.map_some', Option.some.injEq] at h
        subst h
        obtain ⟨h1, h2⟩ := ih k hrest
        refine ⟨by simpa using h1, ?_⟩
        intro j hj
        cases j with
        | zero => simpa using hm
        | succ j => simpa using h2 j (by omega)

/-- When `firstMatch` yields nothing, the text occurs at no index. -/
theorem firstMatch_none (fold : Char → Char) (cs : Bool) (t : List Char) (ht : t ≠ []) :
    ∀ (l : List Char), firstMatch fold cs t l = none →
      ∀ j, matchesAt fold cs t (l.drop j) = false := by
  intro l
  induction l with
  | nil => intro _ j; simpa using matchesAt_nil_right fold cs t ht
  | cons b bs ih =>
    intro h j
    simp only [firstMatch] at h
    by_cases hm : matchesAt fold cs t (b :: bs) = true
    · simp [hm] at h
    · simp only [hm, Bool.false_eq_true, if_false, Option.map_eq_none'] at h
      cases j with
      | zero => simpa using hm
      | succ j => simpa using ih h j

/-- What the exact forward search yields for a plain text that is not empty: the
first occurrence at or after `pos`, selected from its start to its end. -/
theorem exactFind_some (fold : Char → Char) (rest : DocFind) (cs : Bool) (t doc : List Char)
    (pos : Nat) (c : QTextCursor) (ht : t ≠ [])
    (h : exactFind fold rest doc (needleOf t (plainOptions cs)) pos
      (findFlagsOf (plainOptions cs) true) = some c) :
    pos ≤ c.anchor ∧ c.position = c.anchor + t.length
    ∧ occursAt fold cs t doc c.anchor = true
    ∧ (∀ i, pos ≤ i → i < c.anchor → occursAt fold cs t doc i = false)
    ∧ c.position ≤ doc.length := by
  have hne : t.isEmpty = false := by
    cases t with
    | nil => exact absurd rfl ht
    | cons a t => rfl
  simp only [exactFind, needleOf, plainOptions, findFlagsOf, Bool.not_true, Bool.or_self,
    Bool.false_eq_true, if_false, hne] at h
  cases hfm : firstMatch fold cs t (doc.drop pos) with
  | none => rw [hfm] at h; simp at h
  | some i =>
    rw [hfm] at h
    simp only [Option.map_some', Option.some.injEq] at h
    subst h
    obtain ⟨h1, h2⟩ := firstMatch_some fold cs t _ i hfm
    rw [List.drop_drop] at h1
    have hlen := matchesAt_length fold cs t _ h1
    rw [List.length_drop] at hlen
    have hpos : 0 < t.length := List.length_pos.mpr ht
    refine ⟨by simp, rfl, ?_, ?_, ?_⟩
    · simpa [occursAt, Nat.add_comm] using h1
    · intro j hj1 hj2
      have := h2 (j - pos) (by simp only at hj2; omega)
      rw [List.drop_drop] at this
      have e : pos + (j - pos) = j := by omega
      rw [e] at this
      simpa [occursAt] using this
    · simp only; omega

/-- When the exact forward search yields nothing for a plain text that is not
empty, the text occurs nowhere at or after `pos`. -/
theorem exactFind_none (fold : Char → Char) (rest : DocFind) (cs : Bool) (t doc : List Char)
    (pos : Nat) (ht : t ≠ [])
    (h : exactFind fold rest doc (needleOf t (plainOptions cs)) pos
      (findFlagsOf (plainOptions cs) true) = none) :
    ∀ i, pos ≤ i → occursAt fold cs t doc i = false := by
  have hne : t.isEmpty = false := by
    cases t with
    | nil => exact absurd rfl ht
    | cons a t => rfl
  simp only [exactFind, needleOf, plainOptions, findFlagsOf, Bool.not_true, Bool.or_self,
    Bool.false_eq_true, if_false, hne, Option.map_eq_none'] at h
  intro i hi
  have := firstMatch_none fold cs t ht _ h (i - pos)
  rw [List.drop_drop] at this
  have e : pos + (i - pos) = i := by omega
  rw [e] at this
  simpa [occursAt] using this

/-- The exact forward search for a plain text that is not empty makes
progress. -/
theorem exactFind_progressive (fold : Char → Char) (rest : DocFind) (cs : Bool)
    (t doc : List Char) (ht : t ≠ []) :
    Progressive (exactFind fold rest) doc (needleOf t (plainOptions cs))
      (findFlagsOf (plainOptions cs) true) := by
  intro pos c h
  obtain ⟨h1, h2, -, -, h5⟩ := exactFind_some fold rest cs t doc pos c ht h
  have hpos : 0 < t.length := List.length_pos.mpr ht
  simp only [QTextCursor.selectionStart, QTextCursor.selectionEnd]
  omega

/-- Matches the host finds one after the other with the exact search are the
first occurrences in the words of the specification. -/
theorem GreedyFrom.firstMatches (fold : Char → Char) (rest : DocFind) (cs : Bool)
    (t doc : List Char) (ht : t ≠ []) :
    ∀ (ms : List QTextCursor) (pos : Nat),
      GreedyFrom (exactFind fold rest) doc (needleOf t (plainOptions cs))
        (findFlagsOf (plainOptions cs) true) pos ms →
      FirstMatchesFrom fold cs t doc pos ms := by
  intro ms
  induction ms with
  | nil =>
    intro pos hg
    exact exactFind_none fold rest cs t doc pos ht hg
  | cons m ms ih =>
    intro pos hg
    obtain ⟨hm, hrest⟩ := hg
    obtain ⟨h1, h2, h3, h4, -⟩ := exactFind_some fold rest cs t doc pos m ht hm
    have hend : m.selectionEnd = m.position := by
      simp only [QTextCursor.selectionEnd]; omega
    rw [hend] at hrest
    exact ⟨h1, h2, h3, h4, ih m.position hrest⟩

/-- C3: for a plain search text that is not empty (no whole-word and no
regular-expression option) and fuel for one round more than the document has
positions, `findTextAll` returns a list of matches of which the first is the
first occurrence at or after position 0 and each next one the first occurrence
at or after the end of the one before; their starts increase strictly and each
starts at or after the end of the one before, so no two overlap. On a document
"foo foo" the text "foo" gives exactly the two matches from 0 to 3 and from 4 to
7. For an empty search text the list is empty. -/
theorem VEdit.findTextAll_plain (fold : Char → Char) (rest : DocFind) (cs : Bool)
    (p_text : List Char) (ed : VEdit) (fuel : Nat)
    (htext : p_text ≠ []) (hfuel : ed.doc.length + 1 ≤ fuel) :
    (∃ ms : List QTextCursor,
      ed.findTextAll (exactFind fold rest) fuel p_text (plainOptions cs) = some ms
      ∧ FirstMatchesFrom fold cs p_text ed.doc 0 ms
      ∧ ms.Pairwise (fun a b =>
          a.selectionStart < b.selectionStart ∧ a.selectionEnd ≤ b.selectionStart)
      ∧ ∀ m ∈ ms, m.selectionStart = m.anchor ∧ m.selectionEnd = m.anchor + p_text.length
          ∧ m.selectionEnd ≤ ed.doc.length)
    ∧ (∀ (w : VEdit) (caseSensitive : Bool), w.doc = ['f', 'o', 'o', ' ', 'f', 'o', 'o'] →
        w.findTextAll sampleFind 8 ['f', 'o', 'o'] (plainOptions caseSensitive)
          = some [⟨0, 3⟩, ⟨4, 7⟩])
    ∧ (∀ (H : DocFind) (p_options : FindOptions) (n : Nat),
        ed.findTextAll H n [] p_options = some []) := by
  have hne : p_text.isEmpty = false := by
    cases p_text with
    | nil => exact absurd rfl htext
    | cons a t => rfl
  have hP := exactFind_progressive fold rest cs p_text ed.doc htext
  obtain ⟨ms, hloop, hgreedy⟩ := VEdit.findTextAllLoop_progressive _ ed.doc _ _ hP fuel 0 []
    (by omega) (by omega)
  obtain ⟨hbounds, hpair⟩ := GreedyFrom.ordered _ ed.doc _ _ hP ms 0 hgreedy
  have hfirst := GreedyFrom.firstMatches fold rest cs p_text ed.doc htext ms 0 hgreedy
  have hmem : ∀ (l : List QTextCursor) (pos : Nat), FirstMatchesFrom fold cs p_text ed.doc pos l →
      ∀ m ∈ l, m.position = m.anchor + p_text.length := by
    intro l
    induction l with
    | nil => intro pos _ m hm; simp at hm
    | cons x xs ih =>
      intro pos hx m hm
      rcases List.mem_cons.mp hm with rfl | hm
      · exact hx.2.1
      · exact ih x.position hx.2.2.2.2 m hm
  refine ⟨⟨ms, ?_, hfirst, ?_, ?_⟩, ?_, ?_⟩
  · simpa [VEdit.findTextAll, hne] using hloop
  · have hin := List.pairwise_of_forall_mem_list
      (l := ms) (r := fun a b : QTextCursor => a ∈ ms ∧ b ∈ ms) (fun a ha b hb => ⟨ha, hb⟩)
    refine (hpair.and hin).imp ?_
    intro a b hab
    have ha := (hbounds a hab.2.1).2.1
    exact ⟨by have := hab.1; omega, hab.1⟩
  · intro m hm
    have h1 := hmem ms 0 hfirst m hm
    have h2 := (hbounds m hm).2.2
    simp only [QTextCursor.selectionStart, QTextCursor.selectionEnd] at h2 ⊢
    omega
  · intro w caseSensitive hw
    simp only [VEdit.findTextAll, hw]
    cases caseSensitive <;> decide
  · intro H p_options n
    simp [VEdit.findTextAll]

/-- Witness of C3: in "abcabc" the text "bc" is found from 1 to 3 and from 4 to
6. -/
theorem VEdit.findTextAll_plain_witness :
    (sampleEdit ['a', 'b', 'c', 'a', 'b', 'c'] ⟨0, 0⟩).findTextAll sampleFind 7 ['b', 'c']
        (plainOptions true) = some [⟨1, 3⟩, ⟨4, 6⟩]
    ∧ ∃ ms : List QTextCursor,
      (sampleEdit ['a', 'b', 'c', 'a', 'b', 'c'] ⟨0, 0⟩).findTextAll
          (exactFind Char.toLower findsNothing) 7 ['b', 'c'] (plainOptions true) = some ms
      ∧ FirstMatchesFrom Char.toLower true ['b', 'c']
          (sampleEdit ['a', 'b', 'c', 'a', 'b', 'c'] ⟨0, 0⟩).doc 0 ms
      ∧ ms.Pairwise (fun a b =>
          a.selectionStart < b.selectionStart ∧ a.selectionEnd ≤ b.selectionStart)
      ∧ ∀ m ∈ ms, m.selectionStart = m.anchor ∧ m.selectionEnd = m.anchor + ['b', 'c'].length
          ∧ m.selectionEnd ≤ (sampleEdit ['a', 'b', 'c', 'a', 'b', 'c'] ⟨0, 0⟩).doc.length :=
  ⟨by decide,
    (VEdit.findTextAll_plain Char.toLower findsNothing true ['b', 'c']
      (sampleEdit ['a', 'b', 'c', 'a', 'b', 'c'] ⟨0, 0⟩) 7 (by decide) (by decide)).1⟩

/-! ### Single-step find of a text that occurs once -/

/-- The result of `findTextAll` depends on the document only. -/
theorem VEdit.findTextAll_doc (H : DocFind) (fuel : Nat) (p_text : List Char)
    (p_options : FindOptions) (ed ed1 : VEdit) (h : ed1.doc = ed.doc) :
    ed1.findTextAll H fuel p_text p_options = ed.findTextAll H fuel p_text p_options := by
  simp only [VEdit.findTextAll, h]

/-- When `findTextAll` returns, `highlightSearchedWord` returns and leaves the
document and the cursor. -/
theorem VEdit.highlightSearchedWord_frame (H : DocFind) (vconfig : VConfigManager) (fuel : Nat)
    (p_text : List Char) (p_options : FindOptions) (ed : VEdit) (ms : List QTextCursor)
    (hall : ed.findTextAll H fuel p_text p_options = some ms) :
    ∃ ed1 : VEdit, ed.highlightSearchedWord H vconfig fuel p_text p_options = some ed1
      ∧ ed1.doc = ed.doc ∧ ed1.cursor = ed.cursor := by
  by_cases hc : (!vconfig.highlightSearchedWord || p_text.isEmpty) = true
  · simp only [VEdit.highlightSearchedWord, hc, if_true]
    split_ifs
    · exact ⟨_, rfl, rfl, rfl⟩
    · exact ⟨_, rfl, rfl, rfl⟩
  · have htext : p_text ≠ [] := by
      intro h
      apply hc
      simp [h]
    obtain ⟨ed1, h1, h2, h3, -⟩ := VEdit.highlightTextAll_slot H fuel p_text p_options
      SelectionId.SearchedKeyword ⟨ed.m_searchedWordColor, false⟩ none ed ms htext hall
    exact ⟨ed1, by simp only [VEdit.highlightSearchedWord, hc, Bool.false_eq_true, if_false, h1],
      h2, h3⟩

/-- C2: with the exact search, for a plain search text that is not empty and
occurs in the document at the position `i` and nowhere else, and from every
cursor (with or without a selection), the forward `findTextHelper` returns true
with the selection from `i` to the end of the occurrence and nothing else of
the widget changed; it wraps at most once, and `p_wrapped` is true exactly when
it wrapped, which is exactly when the first search, from the end of the
cursor's selection, found nothing, that is when the occurrence starts before
that end. `findText` returns true with the same selection and the document
unchanged. -/
theorem VEdit.findText_single_occurrence (fold : Char → Char) (rest : DocFind)
    (vconfig : VConfigManager) (cs : Bool) (p_text : List Char) (ed : VEdit) (fuel i : Nat)
    (htext : p_text ≠ [])
    (hocc : occursAt fold cs p_text ed.doc i = true)
    (huniq : ∀ j, occursAt fold cs p_text ed.doc j = true → j = i)
    (hfuel : ed.doc.length + 1 ≤ fuel) :
    (∃ r : FindOutcome,
      ed.findTextHelper (exactFind fold rest) fuel p_text (plainOptions cs) true = some r
      ∧ r.found = true
      ∧ r.ed = ed.setTextCursor ⟨i, i + p_text.length⟩
      ∧ r.nrWraps ≤ 1
      ∧ (r.wrapped = true ↔ r.nrWraps = 1)
      ∧ (r.wrapped = true ↔
          exactFind fold rest ed.doc (needleOf p_text (plainOptions cs))
            ed.cursor.selectionEnd (findFlagsOf (plainOptions cs) true) = none)
      ∧ (r.wrapped = true ↔ i < ed.cursor.selectionEnd))
    ∧ ∃ ed1 : VEdit,
        ed.findText (exactFind fold rest) vconfig fuel p_text (plainOptions cs) true
          = some (true, ed1)
        ∧ ed1.cursor = ⟨i, i + p_text.length⟩ ∧ ed1.doc = ed.doc := by
  have hne : p_text.isEmpty = false := by
    cases p_text with
    | nil => exact absurd rfl htext
    | cons a t => rfl
  have hdoclen : p_text.length ≤ ed.doc.length := by
    have h1 := matchesAt_length fold cs p_text _ hocc
    rw [List.length_drop] at h1
    omega
  have hpos : 0 < p_text.length := List.length_pos.mpr htext
  obtain ⟨n, rfl⟩ : ∃ n, fuel = n + 2 := ⟨fuel - 2, by omega⟩
  have hstart : findStart (findFlagsOf (plainOptions cs) true) ed.cursor
      = ed.cursor.selectionEnd := rfl
  have hcur : ∀ (pos : Nat) (c : QTextCursor),
      exactFind fold rest ed.doc (needleOf p_text (plainOptions cs)) pos
        (findFlagsOf (plainOptions cs) true) = some c →
      c = ⟨i, i + p_text.length⟩ ∧ pos ≤ i := by
    intro pos c hc
    obtain ⟨h1, h2, h3, -, -⟩ := exactFind_some fold rest cs p_text ed.doc pos c htext hc
    have hi := huniq c.anchor h3
    refine ⟨?_, by omega⟩
    cases c
    simp only at hi h2
    simp [hi, h2]
  have hhelper : ∃ r : FindOutcome,
      ed.findTextHelper (exactFind fold rest) (n + 2) p_text (plainOptions cs) true = some r
      ∧ r.found = true
      ∧ r.ed = ed.setTextCursor ⟨i, i + p_text.length⟩
      ∧ r.nrWraps ≤ 1
      ∧ (r.wrapped = true ↔ r.nrWraps = 1)
      ∧ (r.wrapped = true ↔
          exactFind fold rest ed.doc (needleOf p_text (plainOptions cs))
            ed.cursor.selectionEnd (findFlagsOf (plainOptions cs) true) = none)
      ∧ (r.wrapped = true ↔ i < ed.cursor.selectionEnd) := by
    rw [VEdit.findTextHelper_eq, hstart]
    cases h1 : exactFind fold rest ed.doc (needleOf p_text (plainOptions cs))
        ed.cursor.selectionEnd (findFlagsOf (plainOptions cs) true) with
    | some c =>
      obtain ⟨hc, hle⟩ := hcur _ c h1
      subst hc
      refine ⟨_, rfl, rfl, rfl, by simp, by simp, by simp, ?_⟩
      simp only [Bool.false_eq_true, false_iff, not_lt]
      exact hle
    | none =>
      have hlt : i < ed.cursor.selectionEnd := by
        by_contra hge
        have := exactFind_none fold rest cs p_text ed.doc _ htext h1 i (by omega)
        rw [hocc] at this
        exact absurd this (by decide)
      cases h2 : exactFind fold rest ed.doc (needleOf p_text (plainOptions cs)) 0
          (findFlagsOf (plainOptions cs) true) with
      | none =>
        have := exactFind_none fold rest cs p_text ed.doc 0 htext h2 i (Nat.zero_le i)
        rw [hocc] at this
        exact absurd this (by decide)
      | some c =>
        obtain ⟨hc, -⟩ := hcur _ c h2
        subst hc
        simp only [if_true, h2]
        exact ⟨_, rfl, rfl, rfl, by simp, by simp, by simp, by simpa using hlt⟩
  refine ⟨hhelper, ?_⟩
  obtain ⟨r, hr, hfound, hed, -⟩ := hhelper
  have hP := exactFind_progressive fold rest cs p_text ed.doc htext
  obtain ⟨ms, hloop, -⟩ := VEdit.findTextAllLoop_progressive _ ed.doc _ _ hP (n + 2) 0 []
    (by omega) (by omega)
  have hall : ed.findTextAll (exactFind fold rest) (n + 2) p_text (plainOptions cs)
      = some ms := by
    simpa [VEdit.findTextAll, hne] using hloop
  have hdoc1 : (if r.wrapped = true then r.ed.showWrapLabel else r.ed).doc = ed.doc := by
    split_ifs <;> simp [hed, VEdit.showWrapLabel, VEdit.setTextCursor]
  have hcur1 : (if r.wrapped = true then r.ed.showWrapLabel else r.ed).cursor
      = ⟨i, i + p_text.length⟩ := by
    split_ifs <;> simp [hed, VEdit.showWrapLabel, VEdit.setTextCursor]
  obtain ⟨ed2, h1, h2, h3⟩ := VEdit.highlightSearchedWord_frame (exactFind fold rest) vconfig
    (n + 2) p_text (plainOptions cs) (if r.wrapped = true then r.ed.showWrapLabel else r.ed) ms
    ((VEdit.findTextAll_doc _ _ _ _ ed _ hdoc1).trans hall)
  refine ⟨ed2, ?_, h3.trans hcur1, h2.trans hdoc1⟩
  simp only [VEdit.findText, hne, hr, hfound, if_true, Bool.false_eq_true, if_false, h1,
    Option.map_some']

/-- Witness of C2: in "abcde" the text "bc" occurs at position 1 only; from the
cursor behind "d" the forward search wraps once and selects it. -/
theorem VEdit.findText_single_occurrence_witness :
    (sampleEdit ['a', 'b', 'c', 'd', 'e'] ⟨4, 4⟩).findTextHelper sampleFind 6 ['b', 'c']
        (plainOptions true) true
      = some ⟨true, true, 1, sampleEdit ['a', 'b', 'c', 'd', 'e'] ⟨1, 3⟩⟩
    ∧ ∃ ed1 : VEdit,
        (sampleEdit ['a', 'b', 'c', 'd', 'e'] ⟨4, 4⟩).findText
            (exactFind Char.toLower findsNothing) sampleConfig 6 ['b', 'c'] (plainOptions true)
            true = some (true, ed1)
        ∧ ed1.cursor = ⟨1, 1 + ['b', 'c'].length⟩
        ∧ ed1.doc = (sampleEdit ['a', 'b', 'c', 'd', 'e'] ⟨4, 4⟩).doc :=
  ⟨by decide,
    (VEdit.findText_single_occurrence Char.toLower findsNothing sampleConfig true ['b', 'c']
      (sampleEdit ['a', 'b', 'c', 'd', 'e'] ⟨4, 4⟩) 6 1 (by decide) (by decide)
      (by
        intro j hj
        match j with
        | 0 => exact absurd hj (by decide)
        | 1 => rfl
        | 2 => exact absurd hj (by decide)
        | 3 => exact absurd hj (by decide)
        | 4 => exact absurd hj (by decide)
        | k + 5 => simp [occursAt, sampleEdit, matchesAt] at hj)
      (by decide)).2⟩

/-! ### Replace all -/

/-- The exact forward search for a plain text that is not empty, written with
`firstMatch`. -/
theorem exactFind_plain_eq (fold : Char → Char) (rest : DocFind) (cs : Bool)
    (t doc : List Char) (pos : Nat) (ht : t ≠ []) :
    exactFind fold rest doc (needleOf t (plainOptions cs)) pos
        (findFlagsOf (plainOptions cs) true)
      = (firstMatch fold cs t (doc.drop pos)).map fun i => ⟨pos + i, pos + i + t.length⟩ := by
  have hne : t.isEmpty = false := by
    cases t with
    | nil => exact absurd rfl ht
    | cons a t => rfl
  simp only [exactFind, needleOf, plainOptions, findFlagsOf, Bool.not_true, Bool.or_self,
    Bool.false_eq_true, if_false, hne]

/-- One replacement of the loop of `replaceTextAll`: the selected match gives
way to the replacement text, the cursor ends behind it, and the count goes up
by one. -/
theorem VEdit.replaceFound_spec (t : List Char) (st : ReplaceAllState) (r : FindOutcome)
    (hsel : r.ed.cursor.hasSelection = true) :
    (VEdit.replaceFound t st r).nrReplaces = st.nrReplaces + 1
    ∧ (VEdit.replaceFound t st r).ed.doc
        = r.ed.doc.take r.ed.cursor.selectionStart ++ t
          ++ r.ed.doc.drop r.ed.cursor.selectionEnd
    ∧ (VEdit.replaceFound t st r).ed.cursor
        = ⟨r.ed.cursor.selectionStart + t.length, r.ed.cursor.selectionStart + t.length⟩ := by
  obtain ⟨h1, h2⟩ := VEdit.replace_selection_doc r.ed.cursor t r.ed hsel
  refine ⟨rfl, ?_, ?_⟩
  · simpa [VEdit.replaceFound, VEdit.setTextCursor] using h1
  · simpa [VEdit.replaceFound, VEdit.setTextCursor] using h2

/-- The loop of `replaceTextAll` and the loop of `findTextAll` side by side, for
the exact search of a plain text that is not empty. The widget's document is a
text `P` already dealt with followed by the original document `O` from `pos`
on, and the cursor ends at the end of `P`. With fuel for one round more than
`O` has positions left, both loops return, `findTextAll` appends the matches of
`O` from `pos` on, and `replaceTextAll` makes as many replacements and leaves
`P` followed by `O` from `pos` on with these matches replaced. -/
theorem VEdit.replaceTextAllLoop_plain (fold : Char → Char) (rest : DocFind) (cs : Bool)
    (t repl : List Char) (ht : t ≠ []) (n : Nat) (O : List Char) :
    ∀ (k pos : Nat) (P : List Char) (st : ReplaceAllState) (acc : List QTextCursor) (f : Nat),
      st.ed.doc = P ++ O.drop pos → st.ed.cursor.selectionEnd = P.length →
      1 ≤ k → O.length + 1 ≤ k + pos → 1 ≤ f → O.length + 1 ≤ f + pos →
      ∃ (ms : List QTextCursor) (st1 : ReplaceAllState),
        VEdit.findTextAllLoop (exactFind fold rest) O (needleOf t (plainOptions cs))
            (findFlagsOf (plainOptions cs) true) f pos acc = some (acc ++ ms)
        ∧ VEdit.replaceTextAllLoop (exactFind fold rest) (n + 2) t (plainOptions cs) repl k st
            = some st1
        ∧ st1.nrReplaces = st.nrReplaces + ms.length
        ∧ st1.ed.doc = P ++ replaceMatches O repl pos ms := by
  intro k
  induction k with
  | zero => intro pos P st acc f _ _ h; omega
  | succ k ih =>
    intro pos P st acc f hdoc hcur _ hk hf1 hf
    obtain ⟨f, rfl⟩ : ∃ f1, f = f1 + 1 := ⟨f - 1, by omega⟩
    have hpos : 0 < t.length := List.length_pos.mpr ht
    have hstart : findStart (findFlagsOf (plainOptions cs) true) st.ed.cursor = P.length := hcur
    have hdrop : st.ed.doc.drop P.length = O.drop pos := by rw [hdoc, List.drop_left]
    have hfirst := exactFind_plain_eq fold rest cs t st.ed.doc P.length ht
    rw [hdrop] at hfirst
    have hfirstO := exactFind_plain_eq fold rest cs t O pos ht
    have hhelper := VEdit.findTextHelper_eq (exactFind fold rest) n t (plainOptions cs) true st.ed
    rw [hstart, hfirst] at hhelper
    cases hfm : firstMatch fold cs t (O.drop pos) with
    | none =>
      rw [hfm] at hfirstO hhelper
      simp only [Option.map_none', if_true] at hfirstO hhelper
      cases h2 : exactFind fold rest st.ed.doc (needleOf t (plainOptions cs)) 0
          (findFlagsOf (plainOptions cs) true) with
      | none =>
        rw [h2] at hhelper
        refine ⟨[], { st with ed := st.ed }, ?_, ?_, ?_, ?_⟩
        · simp [VEdit.findTextAllLoop, hfirstO]
        · simp [VEdit.replaceTextAllLoop, hhelper]
        · simp
        · simp [replaceMatches, hdoc]
      | some c =>
        rw [h2] at hhelper
        refine ⟨[], { st with ed := st.ed.setTextCursor c }, ?_, ?_, ?_, ?_⟩
        · simp [VEdit.findTextAllLoop, hfirstO]
        · simp [VEdit.replaceTextAllLoop, hhelper]
        · simp
        · simp [replaceMatches, hdoc, VEdit.setTextCursor]
    | some i =>
      rw [hfm] at hfirstO hhelper
      simp only [Option.map_some'] at hfirstO hhelper
      obtain ⟨hm, -⟩ := firstMatch_some fold cs t _ i hfm
      have hlen := matchesAt_length fold cs t _ hm
      rw [List.length_drop, List.length_drop] at hlen
      have hsel : (FindOutcome.mk true false 0
          (st.ed.setTextCursor ⟨P.length + i, P.length + i + t.length⟩)).ed.cursor.hasSelection
          = true := by
        simp only [VEdit.setTextCursor, QTextCursor.hasSelection, bne_iff_ne, ne_eq]
        omega
      obtain ⟨e1, e2, e3⟩ := VEdit.replaceFound_spec repl st _ hsel
      have hs : (FindOutcome.mk true false 0
          (st.ed.setTextCursor ⟨P.length + i, P.length + i + t.length⟩)).ed.cursor.selectionStart
          = P.length + i := by
        simp [VEdit.setTextCursor, QTextCursor.selectionStart]
      have he : (FindOutcome.mk true false 0
          (st.ed.setTextCursor ⟨P.length + i, P.length + i + t.length⟩)).ed.cursor.selectionEnd
          = P.length + (i + t.length) := by
        simp only [VEdit.setTextCursor, QTextCursor.selectionEnd]
        omega
      have hrdoc : (FindOutcome.mk true false 0
          (st.ed.setTextCursor ⟨P.length + i, P.length + i + t.length⟩)).ed.doc
          = P ++ O.drop pos := hdoc
      rw [hs, he, hrdoc, List.take_append, List.drop_append, List.drop_drop] at e2
      rw [hs] at e3
      have hdoc1 : (VEdit.replaceFound repl st (FindOutcome.mk true false 0
          (st.ed.setTextCursor ⟨P.length + i, P.length + i + t.length⟩))).ed.doc
          = (P ++ (O.drop pos).take i ++ repl) ++ O.drop (pos + i + t.length) := by
        rw [e2]
        have : pos + (i + t.length) = pos + i + t.length := by omega
        simp only [List.append_assoc, this]
      have hcur1 : (VEdit.replaceFound repl st (FindOutcome.mk true false 0
          (st.ed.setTextCursor ⟨P.length + i, P.length + i + t.length⟩))).ed.cursor.selectionEnd
          = (P ++ (O.drop pos).take i ++ repl).length := by
        rw [e3]
        simp only [QTextCursor.selectionEnd, List.length_append, List.length_take,
          List.length_drop, max_self]
        omega
      obtain ⟨ms, st1, h1, h2, h3, h4⟩ := ih (pos + i + t.length)
        (P ++ (O.drop pos).take i ++ repl) _ (acc ++ [⟨pos + i, pos + i + t.length⟩]) f
        hdoc1 hcur1 (by omega) (by omega) (by omega) (by omega)
      have hend : (⟨pos + i, pos + i + t.length⟩ : QTextCursor).selectionEnd
          = pos + i + t.length := by
        simp only [QTextCursor.selectionEnd]; omega
      have hbeg : (⟨pos + i, pos + i + t.length⟩ : QTextCursor).selectionStart = pos + i := by
        simp only [QTextCursor.selectionStart]; omega
      refine ⟨⟨pos + i, pos + i + t.length⟩ :: ms, st1, ?_, ?_, ?_, ?_⟩
      · simp only [VEdit.findTextAllLoop, hfirstO, hend, h1, List.append_assoc,
          List.singleton_append]
      · simp only [VEdit.replaceTextAllLoop, hhelper, Bool.not_true, Bool.false_eq_true,
          if_false]
        exact h2
      · rw [h3, e1, List.length_cons]; omega
      · rw [h4]
        simp only [replaceMatches, hend, hbeg, List.append_assoc, Nat.add_sub_cancel_left]

/-- C4: with the exact search, for a plain search text that is not empty (no
whole-word and no regular-expression option), every replacement text and fuel
for two rounds more than the document has positions, `replaceTextAll` returns;
it makes exactly as many replacements as `findTextAll` returns matches on the
original document and leaves the original document with each of these matches
replaced by the replacement text. On a document "aaa", replacing "a" by "bb"
makes exactly 3 replacements and gives "bbbbbb". -/
theorem VEdit.replaceTextAll_plain (fold : Char → Char) (rest : DocFind) (cs : Bool)
    (p_text p_replaceText : List Char) (ed : VEdit) (fuel : Nat)
    (htext : p_text ≠ []) (hfuel : ed.doc.length + 2 ≤ fuel) :
    (∃ (ms : List QTextCursor) (ed1 : VEdit),
      ed.findTextAll (exactFind fold rest) fuel p_text (plainOptions cs) = some ms
      ∧ ed.replaceTextAll (exactFind fold rest) fuel p_text (plainOptions cs) p_replaceText
          = some (ms.length, ed1)
      ∧ ed1.doc = replaceMatches ed.doc p_replaceText 0 ms)
    ∧ (∀ w : VEdit, w.doc = ['a', 'a', 'a'] →
        ∃ ed1 : VEdit,
          w.replaceTextAll (exactFind fold rest) 5 ['a'] (plainOptions true) ['b', 'b']
            = some (3, ed1)
          ∧ ed1.doc = ['b', 'b', 'b', 'b', 'b', 'b']) := by
  have main : ∀ (t p_replaceText : List Char) (c : Bool) (w : VEdit) (g : Nat), t ≠ [] →
      w.doc.length + 2 ≤ g →
      ∃ (ms : List QTextCursor) (ed1 : VEdit),
        w.findTextAll (exactFind fold rest) g t (plainOptions c) = some ms
        ∧ w.replaceTextAll (exactFind fold rest) g t (plainOptions c) p_replaceText
            = some (ms.length, ed1)
        ∧ ed1.doc = replaceMatches w.doc p_replaceText 0 ms := by
    intro t p_replaceText c w g ht hg
    have hne : t.isEmpty = false := by
      cases t with
      | nil => exact absurd rfl ht
      | cons a t => rfl
    obtain ⟨n, rfl⟩ : ∃ n, g = n + 2 := ⟨g - 2, by omega⟩
    obtain ⟨ms, st1, h1, h2, h3, h4⟩ := VEdit.replaceTextAllLoop_plain fold rest c t
      p_replaceText ht n w.doc (n + 2) 0 []
      { nrReplaces := 0, cursor := w.cursor, ed := w.setTextCursor (w.cursor.setPosition 0) }
      [] (n + 2) (by simp [VEdit.setTextCursor])
      (by simp [VEdit.setTextCursor, QTextCursor.setPosition, QTextCursor.selectionEnd])
      (by omega) (by omega) (by omega) (by omega)
    refine ⟨ms, st1.ed.setTextCursor st1.cursor.clearSelection, ?_, ?_, ?_⟩
    · simpa [VEdit.findTextAll, hne] using h1
    · simp only [VEdit.replaceTextAll, h2]
      simp only [h3, Nat.zero_add]
    · simpa [VEdit.setTextCursor] using h4
  refine ⟨main p_text p_replaceText cs ed fuel htext hfuel, ?_⟩
  intro w hw
  obtain ⟨ms, ed1, h1, h2, h3⟩ := main ['a'] ['b', 'b'] true w 5 (by simp) (by simp [hw])
  have hms : ms = [⟨0, 1⟩, ⟨1, 2⟩, ⟨2, 3⟩] := by
    have h : w.findTextAll (exactFind fold rest) 5 ['a'] (plainOptions true)
        = some [⟨0, 1⟩, ⟨1, 2⟩, ⟨2, 3⟩] := by
      simp only [VEdit.findTextAll, hw]
      rfl
    rw [h] at h1
    exact (Option.some.inj h1).symm
  subst hms
  refine ⟨ed1, h2, ?_⟩
  rw [h3, hw]
  rfl

/-- Witness of C4: in "a-a", replacing "a" by "aa", a text that contains the
search text, makes 2 replacements and gives "aa-aa"; and "aaa" with "a" replaced
by "bb" gives "bbbbbb" after 3 replacements. -/
theorem VEdit.replaceTextAll_plain_witness :
    ((sampleEdit ['a', 'a', 'a'] ⟨1, 2⟩).replaceTextAll sampleFind 5 ['a'] (plainOptions true)
        ['b', 'b']).map (fun r => (r.1, r.2.doc))
      = some (3, ['b', 'b', 'b', 'b', 'b', 'b'])
    ∧ ∃ (ms : List QTextCursor) (ed1 : VEdit),
      (sampleEdit ['a', '-', 'a'] ⟨1, 2⟩).findTextAll (exactFind Char.toLower findsNothing) 5
          ['a'] (plainOptions false) = some ms
      ∧ (sampleEdit ['a', '-', 'a'] ⟨1, 2⟩).replaceTextAll (exactFind Char.toLower findsNothing)
          5 ['a'] (plainOptions false) ['a', 'a'] = some (ms.length, ed1)
      ∧ ed1.doc = replaceMatches (sampleEdit ['a', '-', 'a'] ⟨1, 2⟩).doc ['a', 'a'] 0 ms :=
  ⟨by decide,
    (VEdit.replaceTextAll_plain Char.toLower findsNothing false ['a'] ['a', 'a']
      (sampleEdit ['a', '-', 'a'] ⟨1, 2⟩) 5 (by decide) (by decide)).1⟩

/-! ### Drag-scroll -/

/-- An arithmetic result that is a value of `int` is stored as it is. -/
theorem wrapInt_of_fits (x : Int) (h : fitsInt x = true) : wrapInt x = x := by
  simp only [fitsInt, INT_MIN, INT_MAX, Bool.and_eq_true, decide_eq_true_eq] at h
  simp only [wrapInt]
  omega

/-- A displacement that fits an `int` together with its absolute value is what
the subtraction of the two coordinates gives, and `qAbs` gives its absolute
value. -/
theorem displacement_int (a b : Int) (h : absFitsInt (a - b) = true) :
    intSub a b = a - b ∧ qAbs (a - b) = ((a - b).natAbs : Int) := by
  simp only [absFitsInt, INT_MAX, Bool.and_eq_true, decide_eq_true_eq] at h
  constructor
  · simp only [intSub, wrapInt]
    omega
  · simp only [qAbs, wrapInt]
    split_ifs <;> omega

/-- C7, as stated, fails: in the ready state a move of 10 pixels to the right
reaches the threshold, yet the hidden horizontal scroll bar keeps its value 50
instead of going to 40. -/
theorem mouseMove_hidden_bar_counterexample :
    (sampleMouse true false).m_readyToScroll = true
    ∧ ((ctrlLeftAt 110 100).x - (sampleMouse true false).m_oriMouseX).natAbs ≥ 5
    ∧ ((sampleMouse true false).mouseMoveEvent idleBase (ctrlLeftAt 110 100)).host.horBar.value
        ≠ (sampleMouse true false).host.horBar.value
            - ((ctrlLeftAt 110 100).x - (sampleMouse true false).m_oriMouseX) := by
  decide

/-- C7, amended: with the ready flag set and a displacement (dx, dy) from the
stored origin that fits an `int` together with its absolute value on both axes,
a move with |dx| and |dy| below 5 changes neither scroll bar nor the origin; a
move with |dx| >= 5 or |dy| >= 5 makes the event's coordinates the origin, sets
each visible scroll bar to its value minus the displacement on its axis, an
`int` subtraction whose result the bar bounds to its range (so the change is
exactly -dy, resp. -dx, when that value fits an `int` and lies in the range),
and leaves a hidden scroll bar as it is. -/
theorem mouseMove_ready_pans (base : BaseHandlers) (e : QMouseEvent) (w : MouseWidget)
    (hready : w.m_readyToScroll = true)
    (hx : absFitsInt (e.x - w.m_oriMouseX) = true)
    (hy : absFitsInt (e.y - w.m_oriMouseY) = true) :
    ((e.x - w.m_oriMouseX).natAbs < 5 ∧ (e.y - w.m_oriMouseY).natAbs < 5 →
      (w.mouseMoveEvent base e).host.verBar = w.host.verBar
      ∧ (w.mouseMoveEvent base e).host.horBar = w.host.horBar
      ∧ (w.mouseMoveEvent base e).m_oriMouseX = w.m_oriMouseX
      ∧ (w.mouseMoveEvent base e).m_oriMouseY = w.m_oriMouseY)
    ∧ ((e.x - w.m_oriMouseX).natAbs ≥ 5 ∨ (e.y - w.m_oriMouseY).natAbs ≥ 5 →
      (w.mouseMoveEvent base e).m_oriMouseX = e.x
      ∧ (w.mouseMoveEvent base e).m_oriMouseY = e.y
      ∧ (w.mouseMoveEvent base e).host.verBar
          = (if w.host.verBar.visible
              then w.host.verBar.setValue (intSub w.host.verBar.value (e.y - w.m_oriMouseY))
              else w.host.verBar)
      ∧ (w.mouseMoveEvent base e).host.horBar
          = (if w.host.horBar.visible
              then w.host.horBar.setValue (intSub w.host.horBar.value (e.x - w.m_oriMouseX))
              else w.host.horBar)
      ∧ (w.host.verBar.visible = true
          → fitsInt (w.host.verBar.value - (e.y - w.m_oriMouseY)) = true
          → w.host.verBar.minimum ≤ w.host.verBar.value - (e.y - w.m_oriMouseY)
          → w.host.verBar.value - (e.y - w.m_oriMouseY) ≤ w.host.verBar.maximum
          → (w.mouseMoveEvent base e).host.verBar.value
              = w.host.verBar.value - (e.y - w.m_oriMouseY))
      ∧ (w.host.horBar.visible = true
          → fitsInt (w.host.horBar.value - (e.x - w.m_oriMouseX)) = true
          → w.host.horBar.minimum ≤ w.host.horBar.value - (e.x - w.m_oriMouseX)
          → w.host.horBar.value - (e.x - w.m_oriMouseX) ≤ w.host.horBar.maximum
          → (w.mouseMoveEvent base e).host.horBar.value
              = w.host.horBar.value - (e.x - w.m_oriMouseX))) := by
  obtain ⟨hdx, hqx⟩ := displacement_int e.x w.m_oriMouseX hx
  obtain ⟨hdy, hqy⟩ := displacement_int e.y w.m_oriMouseY hy
  constructor
  · rintro ⟨hx5, hy5⟩
    have hn5 : (decide (((e.x - w.m_oriMouseX).natAbs : Int) ≥ MouseWidget.threshold)
        || decide (((e.y - w.m_oriMouseY).natAbs : Int) ≥ MouseWidget.threshold)) = false := by
      simp only [MouseWidget.threshold, Bool.or_eq_false_iff, decide_eq_false_iff_not]
      omega
    simp only [MouseWidget.mouseMoveEvent, hready, hdx, hdy, hqx, hqy, hn5, if_true,
      Bool.false_eq_true, if_false, and_self]
  · intro h
    have h5 : (decide (((e.x - w.m_oriMouseX).natAbs : Int) ≥ MouseWidget.threshold)
        || decide (((e.y - w.m_oriMouseY).natAbs : Int) ≥ MouseWidget.threshold)) = true := by
      simp only [MouseWidget.threshold, Bool.or_eq_true, decide_eq_true_eq]; omega
    have hbars : (w.mouseMoveEvent base e).host.verBar
          = (if w.host.verBar.visible
              then w.host.verBar.setValue (intSub w.host.verBar.value (e.y - w.m_oriMouseY))
              else w.host.verBar)
        ∧ (w.mouseMoveEvent base e).host.horBar
          = (if w.host.horBar.visible
              then w.host.horBar.setValue (intSub w.host.horBar.value (e.x - w.m_oriMouseX))
              else w.host.horBar) := by
      constructor
      · simp only [MouseWidget.mouseMoveEvent, hready, hdx, hdy, hqx, hqy, h5, if_true]
        split_ifs <;> rfl
      · simp only [MouseWidget.mouseMoveEvent, hready, hdx, hdy, hqx, hqy, h5, if_true]
        split_ifs <;> rfl
    refine ⟨?_, ?_, hbars.1, hbars.2, ?_, ?_⟩
    · simp only [MouseWidget.mouseMoveEvent, hready, hdx, hdy, hqx, hqy, h5, if_true]
      split_ifs <;> rfl
    · simp only [MouseWidget.mouseMoveEvent, hready, hdx, hdy, hqx, hqy, h5, if_true]
      split_ifs <;> rfl
    · intro hv hfit hlo hhi
      rw [hbars.1, hv, if_pos rfl]
      simp only [QScrollBar.setValue, intSub, wrapInt_of_fits _ hfit]
      omega
    · intro hv hfit hlo hhi
      rw [hbars.2, hv, if_pos rfl]
      simp only [QScrollBar.setValue, intSub, wrapInt_of_fits _ hfit]
      omega

/-- Witness of C7 amended: from the origin (100, 100) a move to (110, 95) takes
the visible vertical bar from 50 to 55 and makes 110 the origin's x. -/
theorem mouseMove_ready_pans_witness :
    (sampleMouse true false).m_readyToScroll = true
    ∧ absFitsInt ((ctrlLeftAt 110 95).x - (sampleMouse true false).m_oriMouseX) = true
    ∧ absFitsInt ((ctrlLeftAt 110 95).y - (sampleMouse true false).m_oriMouseY) = true
    ∧ ((sampleMouse true false).mouseMoveEvent idleBase (ctrlLeftAt 110 95)).host.verBar.value
        = (sampleMouse true false).host.verBar.value
            - ((ctrlLeftAt 110 95).y - (sampleMouse true false).m_oriMouseY)
    ∧ ((sampleMouse true false).mouseMoveEvent idleBase (ctrlLeftAt 110 95)).m_oriMouseX
        = (ctrlLeftAt 110 95).x :=
  ⟨rfl, by decide, by decide,
    ((mouseMove_ready_pans idleBase (ctrlLeftAt 110 95) (sampleMouse true false) rfl
      (by decide) (by decide)).2 (Or.inl (by decide))).2.2.2.2.1 rfl (by decide) (by decide)
      (by decide),
    ((mouseMove_ready_pans idleBase (ctrlLeftAt 110 95) (sampleMouse true false) rfl
      (by decide) (by decide)).2 (Or.inl (by decide))).1⟩

/-- C8, as stated, fails: in the Scrolling state (both flags set) a move of 2
pixels right and 1 pixel down from the origin pans nothing and leaves the
origin, although the displacement is not zero. -/
theorem scrolling_small_move_counterexample :
    (sampleMouse true true).dragState = some DragState.Scrolling
    ∧ ((sampleMouse true true).mouseMoveEvent idleBase (ctrlLeftAt 102 101)).host.verBar.value
        ≠ (sampleMouse true true).host.verBar.value
            - ((ctrlLeftAt 102 101).y - (sampleMouse true true).m_oriMouseY)
    ∧ ((sampleMouse true true).mouseMoveEvent idleBase (ctrlLeftAt 102 101)).m_oriMouseX
        ≠ (ctrlLeftAt 102 101).x := by
  decide

/-- C8, amended: in the state ReadyToScroll as in the state Scrolling, for a
displacement from the stored origin that fits an `int` together with its
absolute value on both axes: a move whose displacement reaches 5 pixels on at
least one axis leads to Scrolling (from ReadyToScroll) or stays there (from
Scrolling), sets each visible scroll bar to its value minus the displacement on
its axis (an `int` subtraction, bounded to the range of the bar) and makes the
event's coordinates the origin; a move below 5 pixels on both axes changes no
member of the widget except that the event is accepted, so the state, the
scroll bars and the origin stay and the displacement keeps adding up against
the same origin. The threshold thus decides on every move of the gesture, the
moves in Scrolling included, and not only on the way from ReadyToScroll to
Scrolling. -/
theorem mouseMove_scrolling (base : BaseHandlers) (e : QMouseEvent) (w : MouseWidget)
    (hstate : w.dragState = some DragState.ReadyToScroll
      ∨ w.dragState = some DragState.Scrolling)
    (hx : absFitsInt (e.x - w.m_oriMouseX) = true)
    (hy : absFitsInt (e.y - w.m_oriMouseY) = true) :
    ((e.x - w.m_oriMouseX).natAbs ≥ 5 ∨ (e.y - w.m_oriMouseY).natAbs ≥ 5 →
      (w.mouseMoveEvent base e).dragState = some DragState.Scrolling
      ∧ (w.mouseMoveEvent base e).m_oriMouseX = e.x
      ∧ (w.mouseMoveEvent base e).m_oriMouseY = e.y
      ∧ (w.mouseMoveEvent base e).host.verBar
          = (if w.host.verBar.visible
              then w.host.verBar.setValue (intSub w.host.verBar.value (e.y - w.m_oriMouseY))
              else w.host.verBar)
      ∧ (w.mouseMoveEvent base e).host.horBar
          = (if w.host.horBar.visible
              then w.host.horBar.setValue (intSub w.host.horBar.value (e.x - w.m_oriMouseX))
              else w.host.horBar))
    ∧ ((e.x - w.m_oriMouseX).natAbs < 5 ∧ (e.y - w.m_oriMouseY).natAbs < 5 →
      w.mouseMoveEvent base e = { w with host := { w.host with eventAccepted := true } }
      ∧ (w.mouseMoveEvent base e).dragState = w.dragState
      ∧ (w.mouseMoveEvent base e).host.verBar = w.host.verBar
      ∧ (w.mouseMoveEvent base e).host.horBar = w.host.horBar
      ∧ (w.mouseMoveEvent base e).m_oriMouseX = w.m_oriMouseX
      ∧ (w.mouseMoveEvent base e).m_oriMouseY = w.m_oriMouseY) := by
  obtain ⟨hdx, hqx⟩ := displacement_int e.x w.m_oriMouseX hx
  obtain ⟨hdy, hqy⟩ := displacement_int e.y w.m_oriMouseY hy
  have hready : w.m_readyToScroll = true := by
    unfold MouseWidget.dragState at hstate
    cases hr : w.m_readyToScroll <;> cases hs : w.m_mouseMoveScrolled <;> simp_all
  constructor
  · intro h
    have h5 : (decide (((e.x - w.m_oriMouseX).natAbs : Int) ≥ MouseWidget.threshold)
        || decide (((e.y - w.m_oriMouseY).natAbs : Int) ≥ MouseWidget.threshold)) = true := by
      simp only [MouseWidget.threshold, Bool.or_eq_true, decide_eq_true_eq]; omega
    refine ⟨?_, ?_, ?_, ?_, ?_⟩
    · simp only [MouseWidget.mouseMoveEvent, MouseWidget.dragState, hready, hdx, hdy, hqx, hqy,
        h5, if_true]
      cases hs : w.m_mouseMoveScrolled <;> (simp only [Bool.not_true, Bool.not_false]; split_ifs <;> simp_all)
    · simp only [MouseWidget.mouseMoveEvent, hready, hdx, hdy, hqx, hqy, h5, if_true]
      split_ifs <;> rfl
    · simp only [MouseWidget.mouseMoveEvent, hready, hdx, hdy, hqx, hqy, h5, if_true]
      split_ifs <;> rfl
    · simp only [MouseWidget.mouseMoveEvent, hready, hdx, hdy, hqx, hqy, h5, if_true]
      split_ifs <;> rfl
    · simp only [MouseWidget.mouseMoveEvent, hready, hdx, hdy, hqx, hqy, h5, if_true]
      split_ifs <;> rfl
  · rintro ⟨hx5, hy5⟩
    have hn5 : (decide (((e.x - w.m_oriMouseX).natAbs : Int) ≥ MouseWidget.threshold)
        || decide (((e.y - w.m_oriMouseY).natAbs : Int) ≥ MouseWidget.threshold)) = false := by
      simp only [MouseWidget.threshold, Bool.or_eq_false_iff, decide_eq_false_iff_not]
      omega
    have hsame : w.mouseMoveEvent base e
        = { w with host := { w.host with eventAccepted := true } } := by
      simp only [MouseWidget.mouseMoveEvent, hready, hdx, hdy, hqx, hqy, hn5, if_true,
        Bool.false_eq_true, if_false]
    refine ⟨hsame, ?_, ?_, ?_, ?_, ?_⟩ <;> (rw [hsame]; try rfl)

/-- Witness of C8 amended: in Scrolling, with the origin at (100, 100), the move
to (102, 101) only accepts the event; in ReadyToScroll the move to (110, 100)
leads to Scrolling. -/
theorem mouseMove_scrolling_witness :
    (sampleMouse true true).dragState = some DragState.Scrolling
    ∧ (sampleMouse true true).mouseMoveEvent idleBase (ctrlLeftAt 102 101)
        = { sampleMouse true true with
            host := { (sampleMouse true true).host with eventAccepted := true } }
    ∧ (sampleMouse true false).dragState = some DragState.ReadyToScroll
    ∧ ((sampleMouse true false).mouseMoveEvent idleBase (ctrlLeftAt 110 100)).dragState
        = some DragState.Scrolling :=
  ⟨rfl,
    ((mouseMove_scrolling idleBase (ctrlLeftAt 102 101) (sampleMouse true true) (Or.inr rfl)
      (by decide) (by decide)).2 ⟨by decide, by decide⟩).1,
    rfl,
    ((mouseMove_scrolling idleBase (ctrlLeftAt 110 100) (sampleMouse true false) (Or.inl rfl)
      (by decide) (by decide)).1 (Or.inl (by decide))).1⟩

/-- C9: from any widget in Idle (both flags false), after any sequence of press,
move and release events the in-progress flag is set only if the ready flag is,
so the flags name one of Idle, ReadyToScroll and Scrolling; every release event
leads to Idle from any flags; a press event leads to ReadyToScroll, with the
origin at the event's coordinates, exactly when the button is the left one, the
modifiers are Control alone and the text cursor has no selection, and to Idle
otherwise. -/
theorem dragScroll_state_machine (base : BaseHandlers) (w0 : MouseWidget)
    (hidle : w0.dragState = some DragState.Idle) :
    (∀ inputs : List MouseInput,
      ((inputs.foldl (MouseWidget.handle base) w0).m_mouseMoveScrolled = true
        → (inputs.foldl (MouseWidget.handle base) w0).m_readyToScroll = true)
      ∧ ((inputs.foldl (MouseWidget.handle base) w0).dragState = some DragState.Idle
        ∨ (inputs.foldl (MouseWidget.handle base) w0).dragState = some DragState.ReadyToScroll
        ∨ (inputs.foldl (MouseWidget.handle base) w0).dragState = some DragState.Scrolling))
    ∧ (∀ (w : MouseWidget) (e : QMouseEvent),
        (w.mouseReleaseEvent base e).dragState = some DragState.Idle)
    ∧ (∀ (w : MouseWidget) (e : QMouseEvent),
        ((e.button = MouseButton.LeftButton ∧ e.modifiers = ControlModifier
            ∧ w.host.cursor.hasSelection = false) →
          (w.mousePressEvent base e).dragState = some DragState.ReadyToScroll
          ∧ (w.mousePressEvent base e).m_oriMouseX = e.x
          ∧ (w.mousePressEvent base e).m_oriMouseY = e.y)
        ∧ (¬ (e.button = MouseButton.LeftButton ∧ e.modifiers = ControlModifier
            ∧ w.host.cursor.hasSelection = false) →
          (w.mousePressEvent base e).dragState = some DragState.Idle)) := by
  have hinv : ∀ (inputs : List MouseInput) (w : MouseWidget),
      (w.m_mouseMoveScrolled = true → w.m_readyToScroll = true) →
      ((inputs.foldl (MouseWidget.handle base) w).m_mouseMoveScrolled = true
        → (inputs.foldl (MouseWidget.handle base) w).m_readyToScroll = true) := by
    intro inputs
    induction inputs with
    | nil => intro w hw; simpa using hw
    | cons i rest ih =>
      intro w hw
      simp only [List.foldl_cons]
      apply ih
      cases i with
      | press e =>
        simp only [MouseWidget.handle, MouseWidget.mousePressEvent]
        split_ifs <;> simp
      | move e =>
        simp only [MouseWidget.handle, MouseWidget.mouseMoveEvent]
        split_ifs <;> simp_all
      | release e =>
        simp only [MouseWidget.handle, MouseWidget.mouseReleaseEvent]
        split_ifs <;> simp
  have h0 : w0.m_mouseMoveScrolled = true → w0.m_readyToScroll = true := by
    unfold MouseWidget.dragState at hidle
    cases hr : w0.m_readyToScroll <;> cases hs : w0.m_mouseMoveScrolled <;> simp_all
  refine ⟨fun inputs => ⟨hinv inputs w0 h0, ?_⟩, ?_, ?_⟩
  · have h := hinv inputs w0 h0
    revert h
    generalize inputs.foldl (MouseWidget.handle base) w0 = w
    intro h
    unfold MouseWidget.dragState
    cases hr : w.m_readyToScroll <;> cases hs : w.m_mouseMoveScrolled <;> simp_all
  · intro w e
    simp only [MouseWidget.mouseReleaseEvent, MouseWidget.dragState]
    split_ifs <;> rfl
  · intro w e
    constructor
    · rintro ⟨hb, hm, hs⟩
      simp [MouseWidget.mousePressEvent, MouseWidget.dragState, hb, hm, hs]
    · intro hn
      have hc : (e.button == MouseButton.LeftButton && e.modifiers == ControlModifier
          && !w.host.cursor.hasSelection) = false := by
        by_contra hc
        simp only [Bool.not_eq_false, Bool.and_eq_true, beq_iff_eq, Bool.not_eq_true'] at hc
        exact hn ⟨hc.1.1, hc.1.2, hc.2⟩
      simp [MouseWidget.mousePressEvent, MouseWidget.dragState, hc]

/-- Witness of C9: from the Idle sample widget, a Control-left press, a move of
10 pixels and a release keep the flags consistent, and the state after press
and move is Scrolling. -/
theorem dragScroll_state_machine_witness :
    (sampleMouse false false).dragState = some DragState.Idle
    ∧ (([MouseInput.press (ctrlLeftAt 0 0), MouseInput.move (ctrlLeftAt 10 0),
          MouseInput.release (ctrlLeftAt 10 0)].foldl (MouseWidget.handle idleBase)
          (sampleMouse false false)).m_mouseMoveScrolled = true
        → ([MouseInput.press (ctrlLeftAt 0 0), MouseInput.move (ctrlLeftAt 10 0),
          MouseInput.release (ctrlLeftAt 10 0)].foldl (MouseWidget.handle idleBase)
          (sampleMouse false false)).m_readyToScroll = true)
    ∧ ([MouseInput.press (ctrlLeftAt 0 0), MouseInput.move (ctrlLeftAt 10 0)].foldl
          (MouseWidget.handle idleBase) (sampleMouse false false)).dragState
        = some DragState.Scrolling :=
  ⟨rfl,
    ((dragScroll_state_machine idleBase (sampleMouse false false) rfl).1
      [MouseInput.press (ctrlLeftAt 0 0), MouseInput.move (ctrlLeftAt 10 0),
        MouseInput.release (ctrlLeftAt 10 0)]).1,
    by decide⟩

/-! ### Configuration snapshot -/

/-- C10, as stated, fails: for the tab-stop count 268435456 and the glyph width
8, both values of `int`, the tab stop width is set to -2147483648, which is not
the product 2147483648. -/
theorem VEditConfig.init_overflow_counterexample :
    wideTabConfig.tabStopWidth > 0
    ∧ fitsInt wideTabConfig.tabStopWidth = true
    ∧ fitsInt 8 = true
    ∧ (VEditConfig.init wideTabConfig 8 sampleSnapshot).m_tabStopWidth = -2147483648
    ∧ (VEditConfig.init wideTabConfig 8 sampleSnapshot).m_tabStopWidth
        ≠ wideTabConfig.tabStopWidth * 8 := by
  decide

/-- C10, amended: `VEditConfig::init` depends on the settings and the glyph
width only. For the tab-stop count n and the glyph width w the tab stop width
is the `int` product of n and w when n > 0, which is n*w whenever n*w is a value
of `int` (and n*w reduced modulo 2^32 to the range of `int` otherwise), and 0
when n is not positive; the tab string is n spaces when tab expansion is on and
n > 0 and the single tab character otherwise, the vim-mode flag and the
current-line colour are copied, the whole-block flag equals the vim-mode flag,
the result is the same for every previous snapshot, and a second run with the
same settings and width changes nothing. -/
theorem VEditConfig.init_pure_idempotent (vconfig : VConfigManager) (w : Int)
    (c : VEditConfig) :
    (VEditConfig.init vconfig w c).m_tabStopWidth
        = (if vconfig.tabStopWidth > 0 then intMul vconfig.tabStopWidth w else 0)
    ∧ (vconfig.tabStopWidth > 0 → fitsInt (vconfig.tabStopWidth * w) = true →
        (VEditConfig.init vconfig w c).m_tabStopWidth = vconfig.tabStopWidth * w)
    ∧ (¬ vconfig.tabStopWidth > 0 → (VEditConfig.init vconfig w c).m_tabStopWidth = 0)
    ∧ (VEditConfig.init vconfig w c).m_tabSpaces
        = (if vconfig.isExpandTab = true ∧ vconfig.tabStopWidth > 0
            then List.replicate vconfig.tabStopWidth.toNat ' ' else ['\t'])
    ∧ (vconfig.tabStopWidth > 0 →
        ((List.replicate vconfig.tabStopWidth.toNat ' ').length : Int) = vconfig.tabStopWidth)
    ∧ (VEditConfig.init vconfig w c).m_expandTab = vconfig.isExpandTab
    ∧ (VEditConfig.init vconfig w c).m_enableVimMode = vconfig.enableVimMode
    ∧ (VEditConfig.init vconfig w c).m_cursorLineBg = QColor.mk vconfig.editorCurrentLineBg
    ∧ (VEditConfig.init vconfig w c).m_highlightWholeBlock = vconfig.enableVimMode
    ∧ (∀ c1 : VEditConfig, VEditConfig.init vconfig w c1 = VEditConfig.init vconfig w c)
    ∧ VEditConfig.init vconfig w (VEditConfig.init vconfig w c)
        = VEditConfig.init vconfig w c := by
  have hpure : ∀ c1 c2 : VEditConfig,
      VEditConfig.init vconfig w c1 = VEditConfig.init vconfig w c2 := by
    intro c1 c2
    simp only [VEditConfig.init]
    split_ifs <;> rfl
  have hwidth : (VEditConfig.init vconfig w c).m_tabStopWidth
      = (if vconfig.tabStopWidth > 0 then intMul vconfig.tabStopWidth w else 0) := by
    simp only [VEditConfig.init]
    split_ifs <;> rfl
  refine ⟨hwidth, ?_, ?_, ?_, ?_, ?_, ?_, ?_, ?_, fun c1 => hpure c1 c, hpure _ _⟩
  · intro hn hfit
    rw [hwidth, if_pos hn]
    exact wrapInt_of_fits _ hfit
  · intro hn
    rw [hwidth, if_neg hn]
  · simp only [VEditConfig.init]
    split_ifs <;> simp_all
  · intro h
    simp only [List.length_replicate]
    omega
  · simp only [VEditConfig.init]
    split_ifs <;> rfl
  · simp only [VEditConfig.init]
  · simp only [VEditConfig.init]
  · simp only [VEditConfig.init]

/-! ### Selected-word overlay -/

/-- Trimming a trimmed text changes nothing. -/
theorem trimmed_idem (s : List Char) : trimmed (trimmed s) = trimmed s := by
  unfold trimmed
  have hhead : List.dropWhile isSpace ((s.dropWhile isSpace).rdropWhile isSpace)
      = (s.dropWhile isSpace).rdropWhile isSpace := by
    have hself : List.dropWhile isSpace (s.dropWhile isSpace) = s.dropWhile isSpace :=
      List.dropWhile_idempotent isSpace s
    generalize s.dropWhile isSpace = u at hself
    cases u with
    | nil => simp
    | cons a u1 =>
      have ha : ¬ isSpace a = true := by
        have := (List.dropWhile_eq_self_iff.mp hself) (by simp)
        simpa using this
      obtain ⟨r, hr⟩ := (List.rdropWhile_prefix (p := isSpace) (l := a :: u1))
      cases h : List.rdropWhile isSpace (a :: u1) with
      | nil => simp
      | cons b v =>
        rw [h] at hr
        have hb : b = a := by
          simp only [List.cons_append, List.cons.injEq] at hr
          exact hr.1
        subst hb
        simp [List.dropWhile, ha]
  rw [hhead]
  exact List.rdropWhile_idempotent isSpace _

/-- The loop of `wordInSearchedSelection` answers whether some entry's trimmed
text is the given text. -/
theorem VEdit.wordInSearchedSelectionLoop_iff (doc text : List Char)
    (l : List ExtraSelection) :
    VEdit.wordInSearchedSelectionLoop doc text l = true
      ↔ ∃ x ∈ l, text = trimmed (selectedText doc x.cursor) := by
  induction l with
  | nil => simp [VEdit.wordInSearchedSelectionLoop]
  | cons x xs ih =>
    simp only [VEdit.wordInSearchedSelectionLoop, List.mem_cons, exists_eq_or_imp]
    split_ifs with h
    · simp [h]
    · simp [h, ih]

/-- Writing one slot of the overlay table leaves the others. -/
theorem ExtraSelections.get_set_ne (t : ExtraSelections) (i j : SelectionId)
    (l : List ExtraSelection) (h : j ≠ i) : (t.set i l).get j = t.get j := by
  cases i <;> cases j <;> first | rfl | exact absurd rfl h

/-- Reading the slot of the overlay table just written. -/
theorem ExtraSelections.get_set (t : ExtraSelections) (i : SelectionId)
    (l : List ExtraSelection) : (t.set i l).get i = l := by
  cases i <;> rfl

/-- The overlay table is not touched by `highlightExtraSelections`. -/
theorem VEdit.highlightExtraSelections_table (ed : VEdit) (p_now : Bool) :
    (ed.highlightExtraSelections p_now).m_extraSelections = ed.m_extraSelections := by
  simp only [VEdit.highlightExtraSelections, VEdit.doHighlightExtraSelections]
  split_ifs <;> rfl

/-- Without a filter `highlightTextAll` writes the slot `p_id` only. -/
theorem VEdit.highlightTextAll_others (H : DocFind) (fuel : Nat) (p_text : List Char)
    (p_options : FindOptions) (p_id : SelectionId) (p_format : QTextCharFormat)
    (ed ed1 : VEdit)
    (h : ed.highlightTextAll H fuel p_text p_options p_id p_format none = some ed1)
    (j : SelectionId) (hj : j ≠ p_id) :
    ed1.m_extraSelections.get j = ed.m_extraSelections.get j := by
  simp only [VEdit.highlightTextAll] at h
  split_ifs at h with h1 h2
  · cases hall : ed.findTextAll H fuel p_text p_options with
    | none => rw [hall] at h; simp at h
    | some ms =>
      rw [hall] at h
      simp only [Option.some.injEq] at h
      subst h
      rw [VEdit.highlightExtraSelections_table]
      exact ExtraSelections.get_set_ne _ _ _ _ hj
  · simp only [Option.some.injEq] at h
    subst h
    rfl
  · simp only [Option.some.injEq] at h
    subst h
    rw [VEdit.highlightExtraSelections_table]
    exact ExtraSelections.get_set_ne _ _ _ _ hj

/-- C11: for a host search that makes progress on the trimmed selected text and
fuel for one round more than the document has positions,
`highlightSelectedWord` returns. Afterwards the SelectedWord slot is empty when
the feature is disabled, when the trimmed selected text is empty, or when it
equals the trimmed text of some entry of the SearchedKeyword slot; otherwise the
slot holds the matches `findTextAll` returns for the trimmed selected text with
the case-sensitive option alone, in order, with the selected-word colour. The
other three slots are as before in every case. -/
theorem VEdit.highlightSelectedWord_slot (H : DocFind) (vconfig : VConfigManager)
    (fuel : Nat) (ed : VEdit)
    (hP : Progressive H ed.doc
      (needleOf (trimmed (selectedText ed.doc ed.cursor)) caseSensitiveOptions)
      (findFlagsOf caseSensitiveOptions true))
    (hfuel : ed.doc.length + 1 ≤ fuel) :
    ∃ ed1 : VEdit,
      ed.highlightSelectedWord H vconfig fuel = some ed1
      ∧ ((vconfig.highlightSelectedWord = false
            ∨ trimmed (selectedText ed.doc ed.cursor) = []
            ∨ ∃ x ∈ ed.m_extraSelections.get SelectionId.SearchedKeyword,
                trimmed (selectedText ed.doc ed.cursor) = trimmed (selectedText ed.doc x.cursor)) →
          ed1.m_extraSelections.get SelectionId.SelectedWord = [])
      ∧ (¬ (vconfig.highlightSelectedWord = false
            ∨ trimmed (selectedText ed.doc ed.cursor) = []
            ∨ ∃ x ∈ ed.m_extraSelections.get SelectionId.SearchedKeyword,
                trimmed (selectedText ed.doc ed.cursor) = trimmed (selectedText ed.doc x.cursor)) →
          ∃ ms : List QTextCursor,
            ed.findTextAll H fuel (trimmed (selectedText ed.doc ed.cursor)) caseSensitiveOptions
              = some ms
            ∧ GreedyFrom H ed.doc
                (needleOf (trimmed (selectedText ed.doc ed.cursor)) caseSensitiveOptions)
                (findFlagsOf caseSensitiveOptions true) 0 ms
            ∧ ed1.m_extraSelections.get SelectionId.SelectedWord
                = ms.map fun c => ⟨c, ⟨ed.m_selectedWordColor, false⟩⟩)
      ∧ ed1.m_extraSelections.get SelectionId.CurrentLine
          = ed.m_extraSelections.get SelectionId.CurrentLine
      ∧ ed1.m_extraSelections.get SelectionId.SearchedKeyword
          = ed.m_extraSelections.get SelectionId.SearchedKeyword
      ∧ ed1.m_extraSelections.get SelectionId.TrailingSapce
          = ed.m_extraSelections.get SelectionId.TrailingSapce := by
  have hword : ed.wordInSearchedSelection (trimmed (selectedText ed.doc ed.cursor)) = true
      ↔ ∃ x ∈ ed.m_extraSelections.get SelectionId.SearchedKeyword,
          trimmed (selectedText ed.doc ed.cursor) = trimmed (selectedText ed.doc x.cursor) := by
    simp only [VEdit.wordInSearchedSelection, trimmed_idem]
    exact VEdit.wordInSearchedSelectionLoop_iff _ _ _
  have hcleared : ∀ w : VEdit, w = VEdit.highlightExtraSelections
        { ed with m_extraSelections := ed.m_extraSelections.set SelectionId.SelectedWord [] }
        true →
      w.m_extraSelections.get SelectionId.SelectedWord = []
      ∧ w.m_extraSelections.get SelectionId.CurrentLine
          = ed.m_extraSelections.get SelectionId.CurrentLine
      ∧ w.m_extraSelections.get SelectionId.SearchedKeyword
          = ed.m_extraSelections.get SelectionId.SearchedKeyword
      ∧ w.m_extraSelections.get SelectionId.TrailingSapce
          = ed.m_extraSelections.get SelectionId.TrailingSapce := by
    intro w hw
    subst hw
    rw [VEdit.highlightExtraSelections_table]
    exact ⟨rfl, rfl, rfl, rfl⟩
  cases hen : vconfig.highlightSelectedWord with
  | false =>
    by_cases hempty : (ed.m_extraSelections.get SelectionId.SelectedWord).isEmpty = true
    · refine ⟨ed, ?_, ?_, ?_, rfl, rfl, rfl⟩
      · simp [VEdit.highlightSelectedWord, hen, hempty]
      · intro _
        exact List.isEmpty_iff.mp hempty
      · intro hn
        exact absurd (Or.inl rfl) hn
    · obtain ⟨h1, h2, h3, h4⟩ := hcleared _ rfl
      refine ⟨_, ?_, fun _ => h1, ?_, h2, h3, h4⟩
      · simp [VEdit.highlightSelectedWord, hen, hempty]
      · intro hn
        exact absurd (Or.inl rfl) hn
  | true =>
    by_cases hskip : (trimmed (selectedText ed.doc ed.cursor)).isEmpty = true
        ∨ ed.wordInSearchedSelection (trimmed (selectedText ed.doc ed.cursor)) = true
    · obtain ⟨h1, h2, h3, h4⟩ := hcleared _ rfl
      refine ⟨_, ?_, fun _ => h1, ?_, h2, h3, h4⟩
      · have hb : ((trimmed (selectedText ed.doc ed.cursor)).isEmpty
            || ed.wordInSearchedSelection (trimmed (selectedText ed.doc ed.cursor))) = true := by
          simpa using hskip
        simp only [VEdit.highlightSelectedWord, hen, Bool.not_true, Bool.false_eq_true,
          if_false, hb, if_true]
      · intro hn
        exfalso
        apply hn
        rcases hskip with h | h
        · exact Or.inr (Or.inl (List.isEmpty_iff.mp h))
        · exact Or.inr (Or.inr (hword.mp h))
    · have hne : trimmed (selectedText ed.doc ed.cursor) ≠ [] := by
        intro h
        exact hskip (Or.inl (List.isEmpty_iff.mpr h))
      have hnw : ¬ ∃ x ∈ ed.m_extraSelections.get SelectionId.SearchedKeyword,
          trimmed (selectedText ed.doc ed.cursor) = trimmed (selectedText ed.doc x.cursor) :=
        fun h => hskip (Or.inr (hword.mpr h))
      have hb : ((trimmed (selectedText ed.doc ed.cursor)).isEmpty
          || ed.wordInSearchedSelection (trimmed (selectedText ed.doc ed.cursor))) = false := by
        simp only [not_or, Bool.not_eq_true] at hskip
        simp [hskip.1, hskip.2]
      have hne2 : (trimmed (selectedText ed.doc ed.cursor)).isEmpty = false := by
        simpa using hne
      obtain ⟨ms, hloop, hgreedy⟩ := VEdit.findTextAllLoop_progressive H ed.doc _ _ hP fuel 0 []
        (by omega) (by omega)
      have hall : ed.findTextAll H fuel (trimmed (selectedText ed.doc ed.cursor))
          caseSensitiveOptions = some ms := by
        simpa [VEdit.findTextAll, hne2] using hloop
      obtain ⟨ed1, hrun, -, -, hslot⟩ := VEdit.highlightTextAll_slot H fuel
        (trimmed (selectedText ed.doc ed.cursor)) caseSensitiveOptions SelectionId.SelectedWord
        ⟨ed.m_selectedWordColor, false⟩ none ed ms hne hall
      have hothers := VEdit.highlightTextAll_others H fuel _ _ _ _ ed ed1 hrun
      refine ⟨ed1, ?_, ?_, ?_, hothers _ (by decide), hothers _ (by decide),
        hothers _ (by decide)⟩
      · simp only [VEdit.highlightSelectedWord, hen, Bool.not_true, Bool.false_eq_true,
          if_false, hb, hrun]
      · intro h
        rcases h with h | h | h
        · exact absurd h (by decide)
        · exact absurd h hne
        · exact absurd h hnw
      · intro _
        exact ⟨ms, hall, hgreedy, hslot⟩

/-- Witness of C11: in "ab ab" with " ab" selected, the trimmed text "ab" is
highlighted at both places; with the first "ab" among the searched keywords the
slot stays empty. -/
theorem VEdit.highlightSelectedWord_slot_witness :
    (VEdit.highlightSelectedWord sampleFind sampleConfig 6
        (sampleEdit ['a', 'b', ' ', 'a', 'b'] ⟨2, 5⟩)).map
      (fun ed1 => ed1.m_extraSelections.get SelectionId.SelectedWord)
      = some [⟨⟨0, 2⟩, ⟨⟨"Yellow"⟩, false⟩⟩, ⟨⟨3, 5⟩, ⟨⟨"Yellow"⟩, false⟩⟩]
    ∧ (VEdit.highlightSelectedWord sampleFind sampleConfig 6
        (sampleEditSearched ['a', 'b', ' ', 'a', 'b'] ⟨2, 5⟩ [⟨0, 2⟩])).map
      (fun ed1 => ed1.m_extraSelections.get SelectionId.SelectedWord)
      = some []
    ∧ ∃ ed1 : VEdit,
        VEdit.highlightSelectedWord sampleFind sampleConfig 6
          (sampleEdit ['a', 'b', ' ', 'a', 'b'] ⟨2, 5⟩) = some ed1
        ∧ ed1.m_extraSelections.get SelectionId.SearchedKeyword
            = (sampleEdit ['a', 'b', ' ', 'a', 'b'] ⟨2, 5⟩).m_extraSelections.get
                SelectionId.SearchedKeyword := by
  refine ⟨by decide, by decide, ?_⟩
  obtain ⟨ed1, hrun, _, _, _, hkeep, _⟩ :=
    VEdit.highlightSelectedWord_slot sampleFind sampleConfig 6
      (sampleEdit ['a', 'b', ' ', 'a', 'b'] ⟨2, 5⟩)
      (exactFind_progressive Char.toLower findsNothing true _ _ (by decide)) (by decide)
  exact ⟨ed1, hrun, hkeep⟩

/-! ### Termination of find-all -/

/-- Matches found one after the other by a search that makes progress are at
most as many as the document has positions from the start position on. -/
theorem GreedyFrom.length_le (H : DocFind) (doc : List Char) (needle : Needle)
    (flags : FindFlags) (hP : Progressive H doc needle flags) :
    ∀ (ms : List QTextCursor) (pos : Nat), GreedyFrom H doc needle flags pos ms →
      ms.length ≤ doc.length - pos := by
  intro ms
  induction ms with
  | nil => intro pos _; simp
  | cons m rest ih =>
    intro pos hg
    obtain ⟨hm, hrest⟩ := hg
    obtain ⟨h1, h2, h3⟩ := hP pos m hm
    have := ih m.selectionEnd hrest
    simp only [List.length_cons]
    omega

/-- For a host search that makes progress on the search text, `findTextAll`
returns, given fuel for one round more than the document has positions, and it
returns at most as many matches as the document has positions. -/
theorem VEdit.findTextAll_bounded (H : DocFind) (fuel : Nat) (p_text : List Char)
    (p_options : FindOptions) (ed : VEdit)
    (hP : Progressive H ed.doc (needleOf p_text p_options) (findFlagsOf p_options true))
    (hfuel : ed.doc.length + 1 ≤ fuel) :
    ∃ ms : List QTextCursor,
      ed.findTextAll H fuel p_text p_options = some ms ∧ ms.length ≤ ed.doc.length := by
  by_cases hempty : p_text.isEmpty = true
  · exact ⟨[], by simp [VEdit.findTextAll, hempty], by simp⟩
  · obtain ⟨ms, hloop, hgreedy⟩ := VEdit.findTextAllLoop_progressive H ed.doc _ _ hP fuel 0 []
      (by omega) (by omega)
    have hlen := GreedyFrom.length_le H ed.doc _ _ hP ms 0 hgreedy
    exact ⟨ms, by simpa [VEdit.findTextAll, hempty] using hloop, by simpa using hlen⟩

/-- When the host finds from `pos` a match that ends at `pos`, the loop of
`findTextAll` started at `pos` returns with no amount of fuel: the start
position never moves. -/
theorem VEdit.findTextAllLoop_stuck (H : DocFind) (doc : List Char) (needle : Needle)
    (flags : FindFlags) (pos : Nat) (c : QTextCursor)
    (hfind : H doc needle pos flags = some c) (hend : c.selectionEnd = pos) :
    ∀ (fuel : Nat) (acc : List QTextCursor),
      VEdit.findTextAllLoop H doc needle flags fuel pos acc = none := by
  intro fuel
  induction fuel with
  | zero => intro acc; rfl
  | succ k ih =>
    intro acc
    simp only [VEdit.findTextAllLoop, hfind, hend]
    exact ih _

/-- C12, at the failing input: on the document "a" the search for the regular
expression "x*" finds from position 0 the empty match from 0 to 0, and
`findTextAll` does not return with any amount of fuel, although the search text
is not empty. -/
theorem VEdit.findTextAll_empty_match_diverges :
    starPattern ≠ []
    ∧ emptyMatchFind findsNothing ['a'] (needleOf starPattern regExpOptions) 0
        (findFlagsOf regExpOptions true) = some ⟨0, 0⟩
    ∧ ∀ fuel : Nat,
        (sampleEdit ['a'] ⟨0, 0⟩).findTextAll (emptyMatchFind findsNothing) fuel starPattern
          regExpOptions = none := by
  refine ⟨by decide, by decide, ?_⟩
  intro fuel
  have hstuck := VEdit.findTextAllLoop_stuck (emptyMatchFind findsNothing) ['a']
    (needleOf starPattern regExpOptions) (findFlagsOf regExpOptions true) 0 ⟨0, 0⟩
    (by decide) (by decide) fuel []
  simpa [VEdit.findTextAll, starPattern, sampleEdit] using hstuck

/-! ### Cursor-position reaction -/

/-- Without a previous cursor, or with the cursor in another block than the
previous one, `handleCursorPositionChanged` recomputes CurrentLine and then
TrailingSpace and remembers the cursor. -/
theorem VEdit.handleCursorPositionChanged_block_changed (H : DocFind) (L : TextLayout)
    (vconfig : VConfigManager) (readOnly : Bool) (m_config : VEditConfig) (fuel : Nat)
    (lastCursor : Option QTextCursor) (ed : VEdit)
    (h : ∀ last, lastCursor = some last →
      blockNumber ed.doc ed.cursor.position ≠ blockNumber ed.doc last.position) :
    ed.handleCursorPositionChanged H L vconfig readOnly m_config fuel lastCursor
      = (match ed.recomputeLineAndSpace H L vconfig readOnly m_config fuel with
        | Except.error f => Except.error f
        | Except.ok ed1 => Except.ok (some ed.cursor, ed1)) := by
  cases lastCursor with
  | none => rfl
  | some last =>
    have hne := h last rfl
    simp [VEdit.handleCursorPositionChanged, hne]

/-- With the cursor in the block of the previous cursor and a block text that
is not empty, the test for trailing white space reads the last character of
the text, and `highlightTrailingSpace` runs exactly when it is white space. -/
theorem VEdit.sameBlockReaction_nonempty (H : DocFind) (L : TextLayout)
    (vconfig : VConfigManager) (readOnly : Bool) (m_config : VEditConfig) (fuel : Nat)
    (last : QTextCursor) (ed : VEdit) (ch : Char)
    (hlast : (blockText ed.doc ed.cursor.position).getLast? = some ch) :
    lastIsSpace (blockText ed.doc ed.cursor.position) = Except.ok (isSpace ch)
    ∧ ed.sameBlockReaction H L vconfig readOnly m_config fuel last
      = (match (if isSpace ch then Fault.ofOption (ed.highlightTrailingSpace H vconfig fuel)
            else Except.ok ed) with
        | Except.error f => Except.error f
        | Except.ok ed1 =>
          if (positionInBlock ed.doc last.position : Int) - (L.columnNumber ed.doc last : Int)
              ≠ (positionInBlock ed.doc ed.cursor.position : Int)
                - (L.columnNumber ed.doc ed.cursor : Int)
          then Fault.ofOption (ed1.highlightCurrentLine L vconfig readOnly m_config fuel)
          else Except.ok ed1) := by
  have h1 : lastIsSpace (blockText ed.doc ed.cursor.position) = Except.ok (isSpace ch) := by
    simp only [lastIsSpace, hlast]
  refine ⟨h1, ?_⟩
  simp only [VEdit.sameBlockReaction, h1]

/-- With the cursor in the block of the previous cursor and an empty block
text, `handleCursorPositionChanged` reads a last character that does not exist:
the read is out of range, whatever the host, the settings and the fuel. -/
theorem VEdit.handleCursorPositionChanged_faults (H : DocFind) (L : TextLayout)
    (vconfig : VConfigManager) (readOnly : Bool) (m_config : VEditConfig) (fuel : Nat)
    (last : QTextCursor) (ed : VEdit)
    (hsame : blockNumber ed.doc ed.cursor.position = blockNumber ed.doc last.position)
    (hempty : blockText ed.doc ed.cursor.position = []) :
    ed.handleCursorPositionChanged H L vconfig readOnly m_config fuel (some last)
      = Except.error Fault.outOfRange := by
  simp [VEdit.handleCursorPositionChanged, VEdit.sameBlockReaction, hsame, hempty, lastIsSpace]

/-- C13, at the failing input: in the document of the block "x" and an empty
second block, with the cursor and the previous cursor both in the empty block
(as after deleting its only character), the block text is empty, the block did
not change, and `handleCursorPositionChanged` reads the last character of the
empty text, out of range, with every amount of fuel; in the first block, whose
text is not empty, the same call returns. -/
theorem VEdit.handleCursorPositionChanged_empty_block :
    blockText (sampleEdit ['x', '\n'] ⟨2, 2⟩).doc (sampleEdit ['x', '\n'] ⟨2, 2⟩).cursor.position
      = []
    ∧ blockNumber (sampleEdit ['x', '\n'] ⟨2, 2⟩).doc
        (sampleEdit ['x', '\n'] ⟨2, 2⟩).cursor.position = 1
    ∧ (∀ fuel : Nat,
        (sampleEdit ['x', '\n'] ⟨2, 2⟩).handleCursorPositionChanged
            (trailingSpaceFind findsNothing) plainLayout sampleConfig false sampleSnapshot fuel
            (some ⟨2, 2⟩)
          = Except.error Fault.outOfRange)
    ∧ ((sampleEdit ['x', '\n'] ⟨1, 1⟩).handleCursorPositionChanged
            (trailingSpaceFind findsNothing) plainLayout sampleConfig false sampleSnapshot 3
            (some ⟨0, 0⟩)).toOption.map (fun r => r.1)
        = some (some ⟨1, 1⟩) := by
  refine ⟨by decide, by decide, ?_, by decide⟩
  intro fuel
  exact VEdit.handleCursorPositionChanged_faults _ _ _ _ _ fuel ⟨2, 2⟩
    (sampleEdit ['x', '\n'] ⟨2, 2⟩) rfl (by decide)

end VNote
